import Mathlib

/-!
Verification of the Set/Get rewire engine of `hardline.py`
(function `convert_setget_to_hardlines`, lines 73-186).

The workflow JSON is embedded as Lean structures.  Python dict fields that
the source reads with `.get` are `Option`-valued; a link is the fixed
6-field record `[id, from_node, from_slot, to_node, to_slot, type]` of the
data model.  The imperative mutation of the copied workflow (node output
ports and link records, aliased through `nodes_by_id` / `link_map`) is made
explicit by threading a `RunSt` state; `nodes_by_id` / `link_map` lookups
become "last index whose id matches" searches, matching Python dict
comprehension semantics (later entries win), and mutation through an alias
becomes an update at that index.
-/

namespace Hardline

/-- One output port: `links` mirrors `outputs[i]['links']`; `none` stands for
an absent key or JSON null. -/
structure OutPort where
  links : Option (List Int)
deriving DecidableEq

/-- One input port: `link` mirrors `inputs[i]['link']`. -/
structure InPort where
  link : Option Int
deriving DecidableEq

/-- A workflow node; every field the engine reads.  `id` is optional because
the source reads `n['id']`, which raises when the key is missing. -/
structure Node where
  id : Option Int
  type : Option String
  widgets_values : Option (List (Option String))
  inputs : Option (List InPort)
  outputs : Option (List OutPort)
deriving DecidableEq

/-- A link record `[id, from_node, from_slot, to_node, to_slot, type]`. -/
structure Link where
  id : Int
  src_node : Int
  src_slot : Int
  dst_node : Int
  dst_slot : Int
  ltype : String
deriving DecidableEq

/-- A resolved source triple `(src_node, src_slot, link_type)`. -/
abbrev Src := Int × Int × String

/-- An entry of `skipped_gets`: `(n['id'], name)`. -/
abbrev SkipEntry := Option Int × Option String

/-- An entry of `conflicts`: `(name, prev, candidate, n['id'])`. -/
abbrev ConflictEntry := String × Src × Src × Option Int

/-- An entry of the `rewired` trace: `(name, link_id, n['id'], src_node)`. -/
abbrev TraceEntry := String × Int × Option Int × Int

/-- Values stored inside the `extra.__hardline_rewire` object. -/
inductive RVal where
  | num : Nat → RVal
  | skippedV : List SkipEntry → RVal
  | conflictsV : List ConflictEntry → RVal
  | other : Nat → RVal
deriving DecidableEq

/-- The `extra` side-channel object: the value under the dedicated key
`__hardline_rewire` (an object, i.e. an association list), plus the
remaining keys, kept abstract. -/
structure Extra where
  hardline : Option (List (String × RVal))
  rest : List (String × Nat)
deriving DecidableEq

/-- The top-level workflow.  `nodes` / `links` are optional because the
source checks for their presence and raises otherwise. -/
structure Workflow where
  nodes : Option (List Node)
  links : Option (List Link)
  extra : Option Extra
deriving DecidableEq

def dfltPort : OutPort := ⟨none⟩

def dfltNode : Node := ⟨none, none, none, none, none⟩

def dfltLink : Link := ⟨0, 0, 0, 0, 0, ""⟩

/-- Index of the last `true` in a list of booleans (a Python dict built by
comprehension keeps the last binding for a repeated key). -/
def bLastIdx : List Bool → Option Nat
  | [] => none
  | b :: rest =>
    match bLastIdx rest with
    | some i => some (i + 1)
    | none => if b then some 0 else none

/-- Index of the last element satisfying `p`. -/
def lastIdx? (xs : List α) (p : α → Bool) : Option Nat :=
  bLastIdx (xs.map p)

/-- `nodes_by_id.get(v)` as an index: last node whose `id` equals `v`. -/
def lastIdxNode (ns : List Node) (v : Int) : Option Nat :=
  lastIdx? ns (fun n => n.id = some v)

/-- Position of `link_map.get(lid)`: last link whose id is `lid`. -/
def lastIdxLink (ls : List Link) (lid : Int) : Option Nat :=
  lastIdx? ls (fun l => l.id = lid)

/-- `link_map.get(lid)` by value. -/
def linkMapFind (ls : List Link) (lid : Int) : Option Link :=
  (lastIdxLink ls lid).map (fun i => ls.getD i dfltLink)

/-- `(n.get('widgets_values') or [None])[0]`. -/
def firstWidget (n : Node) : Option String :=
  match n.widgets_values with
  | some (w :: _) => w
  | _ => none

/-- Lines 120-132: what a `SetNode` contributes to the name index: its bound
name together with the captured source triple of its input link, or `none`
when the node is skipped silently. -/
def resolveSet (ls : List Link) (n : Node) : Option (String × Src) :=
  if n.type = some "SetNode" then
    match firstWidget n with
    | none => none
    | some nm =>
      if nm = "" then none
      else
        match n.inputs with
        | some (inp :: _) =>
          match inp.link with
          | none => none
          | some lid =>
            (linkMapFind ls lid).map (fun l => (nm, (l.src_node, l.src_slot, l.ltype)))
        | _ => none
  else none

/-- Lines 133-137: fold step building `name_to_source` and `conflicts`.
The map is an association list where a prepended binding shadows older ones,
matching Python dict assignment. -/
def setPassStep (ls : List Link) (acc : List (String × Src) × List ConflictEntry)
    (n : Node) : List (String × Src) × List ConflictEntry :=
  match resolveSet ls n with
  | none => acc
  | some (nm, cand) =>
    match List.lookup nm acc.1 with
    | some prev =>
      if prev ≠ cand then (acc.1, acc.2 ++ [(nm, prev, cand, n.id)])
      else ((nm, cand) :: acc.1, acc.2)
    | none => ((nm, cand) :: acc.1, acc.2)

/-- Lines 117-137: the write-port resolution pass. -/
def setPass (ns : List Node) (ls : List Link) :
    List (String × Src) × List ConflictEntry :=
  ns.foldl (setPassStep ls) ([], [])

/-- The mutable working set of the read-port pass. -/
structure RunSt where
  nodes : List Node
  links : List Link
  rewired : List TraceEntry
  skipped : List SkipEntry
deriving DecidableEq

/-- The in-place mutation `outs[slot_index]['links'] = new` of node `i`'s
output port `s`, shared by `add_output_link` and `remove_output_link`. -/
def setPortLinks (ns : List Node) (i : Nat) (s : Nat) (newLinks : List Int) : List Node :=
  ns.set i
    { ns.getD i dfltNode with
      outputs := some (((ns.getD i dfltNode).outputs.getD []).set s
        { ((ns.getD i dfltNode).outputs.getD []).getD s dfltPort with links := some newLinks }) }

/-- Lines 94-104: `add_output_link`. -/
def add_output_link (st : RunSt) (node_id : Int) (slot : Int) (lid : Int) : RunSt :=
  match lastIdxNode st.nodes node_id with
  | none => st
  | some i =>
    let node := st.nodes.getD i dfltNode
    let outs := node.outputs.getD []
    if 0 ≤ slot ∧ slot < (outs.length : Int) then
      let port := outs.getD slot.toNat dfltPort
      let newLinks :=
        match port.links with
        | none => [lid]
        | some l => if lid ∈ l then l else l ++ [lid]
      { st with nodes := setPortLinks st.nodes i slot.toNat newLinks }
    else st

/-- Lines 106-114: `remove_output_link`, taking `n['id']` as read from the
node record. -/
def remove_output_link (st : RunSt) (node_id : Option Int) (slot : Int) (lid : Int) : RunSt :=
  match node_id with
  | none => st
  | some v =>
    match lastIdxNode st.nodes v with
    | none => st
    | some i =>
      let node := st.nodes.getD i dfltNode
      let outs := node.outputs.getD []
      if 0 ≤ slot ∧ slot < (outs.length : Int) then
        let port := outs.getD slot.toNat dfltPort
        match port.links with
        | some l =>
          if lid ∈ l then { st with nodes := setPortLinks st.nodes i slot.toNat (l.erase lid) }
          else st
        | none => st
      else st

/-- Lines 144-148: resolution of a `GetNode`: its bound name together with
the recorded triple, or `none` when `name not in name_to_source`. -/
def resolveGet (map : List (String × Src)) (n : Node) : Option (String × Src) :=
  match firstWidget n with
  | none => none
  | some nm =>
    match List.lookup nm map with
    | none => none
    | some tr => some (nm, tr)

/-- Lines 157-159: `link[1] = src_node; link[2] = src_slot; link[5] = ltype`. -/
def rewriteLink (tr : Src) (l : Link) : Link :=
  { l with src_node := tr.1, src_slot := tr.2.1, ltype := tr.2.2 }

/-- Lines 152-162: processing one link id of one output port of a
`GetNode`: rewrite the link's origin, register it on the resolved source,
deregister it from the Get's port, and append to the trace. -/
def processLid (nm : String) (tr : Src) (gid : Option Int) (out_slot : Nat)
    (st : RunSt) (lid : Int) : RunSt :=
  match lastIdxLink st.links lid with
  | none => st
  | some li =>
    let st1 : RunSt := { st with links := st.links.set li (rewriteLink tr (st.links.getD li dfltLink)) }
    let st2 := add_output_link st1 tr.1 tr.2.1 lid
    let st3 := remove_output_link st2 gid (Int.ofNat out_slot) lid
    { st3 with rewired := st3.rewired ++ [(nm, lid, gid, tr.1)] }

/-- Lines 150-151: one output port of a `GetNode`: snapshot the attached
link ids (`list(out.get('links') or [])`, read from the current state of
the node at position `i`) and process each in order. -/
def processSlot (nm : String) (tr : Src) (gid : Option Int) (i : Nat)
    (st : RunSt) (out_slot : Nat) : RunSt :=
  let n := st.nodes.getD i dfltNode
  let lids := (((n.outputs.getD []).getD out_slot dfltPort).links).getD []
  lids.foldl (processLid nm tr gid out_slot) st

/-- Lines 142-162: processing the node at position `i` of the read-port
pass: skip non-`GetNode`s, record unresolved names in `skipped_gets`, and
otherwise rewrite every link of every output port. -/
def processNode (map : List (String × Src)) (st : RunSt) (i : Nat) : RunSt :=
  let n := st.nodes.getD i dfltNode
  if n.type = some "GetNode" then
    match resolveGet map n with
    | none => { st with skipped := st.skipped ++ [(n.id, firstWidget n)] }
    | some (nm, tr) =>
      let outs := n.outputs.getD []
      (List.range outs.length).foldl (processSlot nm tr n.id i) st
  else st

/-- Lines 142-162: the read-port rewrite pass, in node order. -/
def readPass (map : List (String × Src)) (st : RunSt) : RunSt :=
  (List.range st.nodes.length).foldl (processNode map) st

/-- A routing node: `n.get('type') in ('SetNode', 'GetNode')`. -/
def isRouting (n : Node) : Bool :=
  n.type = some "SetNode" ∨ n.type = some "GetNode"

/-- Lines 166-173: ids of the dropped routing nodes. -/
def droppedIds (ns : List Node) : List Int :=
  ns.filterMap (fun n => if isRouting n then n.id else none)

/-- Lines 175-181: the link filter of the pruning step. -/
def keepLink (dropped : List Int) (l : Link) : Bool :=
  ¬(l.src_node ∈ dropped ∨ l.dst_node ∈ dropped)

/-- Python dict assignment `d[k] = v` on an association list: replace the
value in place if the key exists, otherwise append the new binding. -/
def setKey (es : List (String × RVal)) (k : String) (v : RVal) : List (String × RVal) :=
  match es with
  | [] => [(k, v)]
  | (k', v') :: rest => if k' = k then (k, v) :: rest else (k', v') :: setKey rest k v

/-- Lines 183-185: `wf.setdefault('extra', {}).setdefault('__hardline_rewire', {})[...] = ...`
for the three report keys. -/
def setReport (e : Option Extra) (count : Nat) (sk : List SkipEntry)
    (cf : List ConflictEntry) : Extra :=
  let base := e.getD ⟨none, []⟩
  let es0 := base.hardline.getD []
  let es1 := setKey es0 "rewired_count" (RVal.num count)
  let es2 := setKey es1 "skipped_gets" (RVal.skippedV sk)
  let es3 := setKey es2 "conflicts" (RVal.conflictsV cf)
  { base with hardline := some es3 }

/-- Lines 117-162: both passes over a workflow whose `nodes` and `links`
are present: final working set plus the conflicts list. -/
def runEngine (ns : List Node) (ls : List Link) : RunSt × List ConflictEntry :=
  (readPass (setPass ns ls).1 ⟨ns, ls, [], []⟩, (setPass ns ls).2)

/-- Lines 90-186 after the top-level checks: passes, optional pruning, and
report attachment. -/
def convertCore (ns : List Node) (ls : List Link) (e : Option Extra)
    (drop_setget : Bool) : Workflow :=
  { nodes := some (if drop_setget then
        ((runEngine ns ls).1).nodes.filter (fun n => ¬ isRouting n)
      else ((runEngine ns ls).1).nodes)
    links := some (if drop_setget then
        ((runEngine ns ls).1).links.filter (keepLink (droppedIds ((runEngine ns ls).1).nodes))
      else ((runEngine ns ls).1).links)
    extra := some (setReport e ((runEngine ns ls).1).rewired.length
      ((runEngine ns ls).1).skipped ((runEngine ns ls).2)) }

/-- `copy.deepcopy` on a workflow value: an explicit structural clone of
nodes, links and the extra map, including every nested per-port list. -/
def deepcopyList (f : α → α) : List α → List α
  | [] => []
  | x :: xs => f x :: deepcopyList f xs

def deepcopyOpt (f : α → α) : Option α → Option α
  | none => none
  | some x => some (f x)

def deepcopyInPort (p : InPort) : InPort :=
  ⟨deepcopyOpt id p.link⟩

def deepcopyOutPort (p : OutPort) : OutPort :=
  ⟨deepcopyOpt (deepcopyList id) p.links⟩

def deepcopyNode (n : Node) : Node :=
  { id := deepcopyOpt id n.id
    type := deepcopyOpt id n.type
    widgets_values := deepcopyOpt (deepcopyList (deepcopyOpt id)) n.widgets_values
    inputs := deepcopyOpt (deepcopyList deepcopyInPort) n.inputs
    outputs := deepcopyOpt (deepcopyList deepcopyOutPort) n.outputs }

def deepcopyLink (l : Link) : Link :=
  ⟨l.id, l.src_node, l.src_slot, l.dst_node, l.dst_slot, l.ltype⟩

def deepcopyRVal (v : RVal) : RVal :=
  match v with
  | .num c => .num c
  | .skippedV s => .skippedV (deepcopyList id s)
  | .conflictsV c => .conflictsV (deepcopyList id c)
  | .other t => .other t

def deepcopyRKV (kv : String × RVal) : String × RVal :=
  (kv.1, deepcopyRVal kv.2)

def deepcopyExtra (e : Extra) : Extra :=
  { hardline := deepcopyOpt (deepcopyList deepcopyRKV) e.hardline
    rest := deepcopyList id e.rest }

def deepcopy (wf : Workflow) : Workflow :=
  { nodes := deepcopyOpt (deepcopyList deepcopyNode) wf.nodes
    links := deepcopyOpt (deepcopyList deepcopyLink) wf.links
    extra := deepcopyOpt deepcopyExtra wf.extra }

/-- Lines 73-186: `convert_setget_to_hardlines`.  The input is deep-copied,
the top-level shape is checked (raising `ValueError` when `nodes` or
`links` is missing), `nodes_by_id` is built (line 90 raises `KeyError`
when some node lacks an `id` key), and the passes run on the copy. -/
def convert_setget_to_hardlines (workflow : Workflow) (drop_setget : Bool) :
    Except String Workflow :=
  let wf := deepcopy workflow
  match wf.nodes, wf.links with
  | some ns, some ls =>
    if ns.all (fun n => n.id.isSome) then
      Except.ok (convertCore ns ls wf.extra drop_setget)
    else Except.error "KeyError: id"
  | _, _ => Except.error "Input does not look like a ComfyUI workflow (missing nodes or links)."

/-- The transformed links of a successful call (empty on failure). -/
def okLinks (r : Except String Workflow) : List Link :=
  match r with
  | .ok w => w.links.getD []
  | .error _ => []

/-- The transformed nodes of a successful call (empty on failure). -/
def okNodes (r : Except String Workflow) : List Node :=
  match r with
  | .ok w => w.nodes.getD []
  | .error _ => []

/-- The attached report object of a successful call. -/
def okReport (r : Except String Workflow) : List (String × RVal) :=
  match r with
  | .ok w => ((w.extra.map Extra.hardline).getD none).getD []
  | .error _ => []

/-- `True` exactly when the call raised. -/
def isError (r : Except String Workflow) : Bool :=
  match r with
  | .ok _ => false
  | .error _ => true

/-! ### Specification-side definitions

The definitions below restate parts of the specification's language
(first-seen bindings, conflict entries, skip entries, pair counts).  They
are written from the spec's words and are compared with the engine above
by the claim theorems. -/

/-- The triple of the first WriteNode, in node order, that successfully
resolved the given name. -/
def firstBinding (ls : List Link) : List Node → String → Option Src
  | [], _ => none
  | n :: rest, nm =>
    match resolveSet ls n with
    | some p => if p.1 = nm then some p.2 else firstBinding ls rest nm
    | none => firstBinding ls rest nm

/-- The conflict entries a single WriteNode contributes, given the nodes
that precede it: one entry exactly when it resolves its name to a triple
different from the first-seen binding among its predecessors. -/
def conflictContrib (ls : List Link) (pre : List Node) (n : Node) : List ConflictEntry :=
  match resolveSet ls n with
  | none => []
  | some (nm, cand) =>
    match firstBinding ls pre nm with
    | none => []
    | some p => if p ≠ cand then [(nm, p, cand, n.id)] else []

/-- The conflicts list as the spec describes it: per-node contributions in
node order, each judged against the first-seen binding of its prefix. -/
def conflictsFrom (ls : List Link) : List Node → List Node → List ConflictEntry
  | _, [] => []
  | pre, n :: rest => conflictContrib ls pre n ++ conflictsFrom ls (pre ++ [n]) rest

/-- The `skipped_gets` list as the spec describes it: one `(id, name)` pair
per ReadNode whose name has no entry in the resolution index. -/
def skippedSpec (map : List (String × Src)) (ns : List Node) : List SkipEntry :=
  ns.filterMap (fun n =>
    if n.type = some "GetNode" then
      match resolveGet map n with
      | none => some (n.id, firstWidget n)
      | some _ => none
    else none)

/-- The link ids attached to output port `s` of a node. -/
def portLids (n : Node) (s : Nat) : List Int :=
  (((n.outputs.getD []).getD s dfltPort).links).getD []

/-- All link ids attached to any output port of a node, in port order. -/
def nodeLids (n : Node) : List Int :=
  (n.outputs.getD []).flatMap (fun p => p.links.getD [])

/-- All link ids attached to any output port of any node. -/
def allPortLids (ns : List Node) : List Int :=
  ns.flatMap nodeLids

/-- The link ids attached to the first `s` output ports of a node. -/
def takeLids (n : Node) (s : Nat) : List Int :=
  ((n.outputs.getD []).take s).flatMap (fun p => p.links.getD [])

/-- The attached link ids that exist in the link map. -/
def foundLids (ls : List Link) (lids : List Int) : List Int :=
  lids.filter (fun lid => (linkMapFind ls lid).isSome)

/-- The link ids of a node's ports that exist in the link map, port order
then link order. -/
def nodeFoundLids (ls : List Link) (n : Node) : List Int :=
  (n.outputs.getD []).flatMap (fun p => foundLids ls (p.links.getD []))

/-- The trace entries one resolvable ReadNode should produce. -/
def nodeTraceSpec (ls : List Link) (n : Node) (nm : String) (tr : Src) : List TraceEntry :=
  (nodeFoundLids ls n).map (fun lid => (nm, lid, n.id, tr.1))

/-- The number of (ReadNode output-port, link id) pairs eligible for
rewriting: over all ReadNodes whose name resolves, the attached ids whose
link exists, counted once per (port, id) pair. -/
def rewiredPairsSpec (map : List (String × Src)) (ls : List Link) (ns : List Node) : Nat :=
  (ns.map (fun n =>
    if n.type = some "GetNode" then
      match resolveGet map n with
      | some _ => ((n.outputs.getD []).map (fun p => (foundLids ls (p.links.getD [])).length)).sum
      | none => 0
    else 0)).sum

/-- The three report components of one engine run. -/
def engineReport (ns : List Node) (ls : List Link) :
    Nat × List SkipEntry × List ConflictEntry :=
  (((runEngine ns ls).1).rewired.length, ((runEngine ns ls).1).skipped, (runEngine ns ls).2)

/-- The object already stored under the report key of a workflow's extra
area (empty when absent). -/
def priorReport (wf : Workflow) : List (String × RVal) :=
  ((wf.extra.map Extra.hardline).getD none).getD []

/-! ### Data-model well-formedness predicates

The spec's data model (section 3) requires node identifiers to be unique
within the graph, link identifiers to be unique, and each port to hold the
ids of the links originating from it (so an id is attached to at most one
port).  The chained Set/Get condition `NoGetSource` is the extra hypothesis
some amended claims need. -/

def NodupNodeIds (ns : List Node) : Prop :=
  (ns.map Node.id).Nodup ∧ ∀ n ∈ ns, n.id.isSome

def NodupLinkIds (ls : List Link) : Prop :=
  (ls.map Link.id).Nodup

def UniqueAttach (ns : List Node) : Prop :=
  (allPortLids ns).Nodup

/-- No name of the resolution index resolves to a source node that is
itself a ReadNode (no Set captures a Get's output). -/
def NoGetSource (map : List (String × Src)) (ns : List Node) : Prop :=
  ∀ e ∈ map, ∀ n ∈ ns, n.id = some (e : String × Src).2.1 → ¬ n.type = some "GetNode"

/-- The trace entries the read pass should produce, in node order. -/
def traceSpec (map : List (String × Src)) (ls : List Link) (ns : List Node) :
    List TraceEntry :=
  ns.flatMap (fun n =>
    if n.type = some "GetNode" then
      match resolveGet map n with
      | some q => nodeTraceSpec ls n q.1 q.2
      | none => []
    else [])

/-- The rewrite a link id undergoes, determined by the (unique) node whose
output ports list it: the recorded triple when that owner is a ReadNode
with a resolvable name, nothing otherwise. -/
def lidRewriteIn (map : List (String × Src)) (pref : List Node) (lid : Int) : Option Src :=
  match pref.find? (fun n => lid ∈ nodeLids n) with
  | none => none
  | some n =>
    if n.type = some "GetNode" then (resolveGet map n).map (fun q => q.2) else none

/-- A link after the read pass: rewritten when a resolvable ReadNode owns
its id, untouched otherwise. -/
def rewrittenLink (map : List (String × Src)) (pref : List Node) (l : Link) : Link :=
  match lidRewriteIn map pref l.id with
  | some tr => rewriteLink tr l
  | none => l

/-- The output port at position `s` of a node. -/
def portOf (n : Node) (s : Nat) : OutPort :=
  (n.outputs.getD []).getD s dfltPort

/-- The link id `lid` hangs on no output port other than port `s` of the
node at position `j`. -/
def OnlyAt (lid : Int) (j s : Nat) (ns : List Node) : Prop :=
  ∀ i s', lid ∈ (portOf (ns.getD i dfltNode) s').links.getD [] → i = j ∧ s' = s

/-! ### Concrete workflows used by counterexamples and witnesses -/

/-- The worked example of spec section 8: one Set/Get pair on name `X`. -/
def exWf : Workflow :=
  { nodes := some
      [⟨some 1, some "SetNode", some [some "X"], some [⟨some 10⟩], some []⟩,
       ⟨some 2, some "GetNode", some [some "X"], some [], some [⟨some [20]⟩]⟩,
       ⟨some 5, none, none, some [], some [⟨some [10]⟩]⟩,
       ⟨some 3, none, none, some [⟨some 20⟩], some []⟩]
    links := some [⟨10, 5, 0, 1, 0, "IMAGE"⟩, ⟨20, 2, 0, 3, 0, "IMAGE"⟩]
    extra := none }

/-- A chained workflow: Set `A` captures the output of Get `B` (node 2),
Set `B` captures node 5.  Get `A` (node 4) is processed before Get `B`, so
its rewritten link is rewritten a second time when Get `B` runs. -/
def chainWf : Workflow :=
  { nodes := some
      [⟨some 1, some "SetNode", some [some "A"], some [⟨some 40⟩], some []⟩,
       ⟨some 3, some "SetNode", some [some "B"], some [⟨some 10⟩], some []⟩,
       ⟨some 4, some "GetNode", some [some "A"], some [], some [⟨some [20]⟩]⟩,
       ⟨some 2, some "GetNode", some [some "B"], some [], some [⟨some [40]⟩]⟩,
       ⟨some 5, none, none, some [], some [⟨some [10]⟩]⟩,
       ⟨some 6, none, none, some [⟨some 20⟩], some []⟩]
    links := some [⟨40, 2, 0, 1, 0, "T"⟩, ⟨10, 5, 0, 3, 0, "T"⟩, ⟨20, 4, 0, 6, 0, "T"⟩]
    extra := none }

/-- Set `A` captures the output of the unresolved Get `B` (node 2); the
rewiring of Get `A` then registers link 20 on node 2's port. -/
def c6Wf : Workflow :=
  { nodes := some
      [⟨some 1, some "SetNode", some [some "A"], some [⟨some 40⟩], some []⟩,
       ⟨some 4, some "GetNode", some [some "A"], some [], some [⟨some [20]⟩]⟩,
       ⟨some 2, some "GetNode", some [some "B"], some [], some [⟨some [40]⟩]⟩,
       ⟨some 6, none, none, some [⟨some 20⟩], some []⟩]
    links := some [⟨40, 2, 0, 1, 0, "T"⟩, ⟨20, 4, 0, 6, 0, "T"⟩]
    extra := none }

/-- A workflow with `nodes` and `links` present but one node lacking an
`id` key. -/
def badIdWf : Workflow :=
  { nodes := some [⟨none, some "Foo", none, none, none⟩], links := some [], extra := none }

/-- A workflow whose extra area already holds a report object carrying an
unrelated key. -/
def c9Wf : Workflow :=
  { nodes := some [], links := some [],
    extra := some ⟨some [("junk", RVal.other 7)], [("k", 3)]⟩ }

/-- Set `X` captures a link whose origin, node 99, does not exist. -/
def c10Wf : Workflow :=
  { nodes := some
      [⟨some 1, some "SetNode", some [some "X"], some [⟨some 10⟩], some []⟩,
       ⟨some 2, some "GetNode", some [some "X"], some [], some [⟨some [20]⟩]⟩,
       ⟨some 3, none, none, some [⟨some 20⟩], some []⟩]
    links := some [⟨10, 99, 0, 1, 0, "T"⟩, ⟨20, 2, 0, 3, 0, "T"⟩]
    extra := none }

/-- Two WriteNodes bind `X` to different triples; a ReadNode reads `X`. -/
def cfWf : Workflow :=
  { nodes := some
      [⟨some 1, some "SetNode", some [some "X"], some [⟨some 10⟩], some []⟩,
       ⟨some 7, some "SetNode", some [some "X"], some [⟨some 11⟩], some []⟩,
       ⟨some 2, some "GetNode", some [some "X"], some [], some [⟨some [20]⟩]⟩,
       ⟨some 5, none, none, some [], some [⟨some [10]⟩]⟩,
       ⟨some 6, none, none, some [], some [⟨some [11]⟩]⟩,
       ⟨some 3, none, none, some [⟨some 20⟩], some []⟩]
    links := some [⟨10, 5, 0, 1, 0, "T"⟩, ⟨11, 6, 1, 7, 0, "U"⟩, ⟨20, 2, 0, 3, 0, "T"⟩]
    extra := none }

/-- A workflow with no routing nodes at all. -/
def plainWf : Workflow :=
  { nodes := some
      [⟨some 5, some "Loader", none, some [], some [⟨some [10]⟩]⟩,
       ⟨some 3, some "Save", none, some [⟨some 10⟩], some []⟩]
    links := some [⟨10, 5, 0, 3, 0, "IMAGE"⟩]
    extra := some ⟨none, [("workspace_info", 1)]⟩ }

/-- An unresolvable ReadNode (`B` has no WriteNode) in a graph with no
chained captures: its node entry and link must survive untouched. -/
def c6okWf : Workflow :=
  { nodes := some
      [⟨some 2, some "GetNode", some [some "B"], some [], some [⟨some [40]⟩]⟩,
       ⟨some 1, none, none, some [⟨some 40⟩], some []⟩]
    links := some [⟨40, 2, 0, 1, 0, "T"⟩]
    extra := none }

instance decNodupNodeIds (ns : List Node) : Decidable (NodupNodeIds ns) := by
  unfold NodupNodeIds
  exact inferInstance

instance decNodupLinkIds (ls : List Link) : Decidable (NodupLinkIds ls) := by
  unfold NodupLinkIds
  exact inferInstance

instance decUniqueAttach (ns : List Node) : Decidable (UniqueAttach ns) := by
  unfold UniqueAttach
  exact inferInstance

instance decNoGetSource (map : List (String × Src)) (ns : List Node) :
    Decidable (NoGetSource map ns) := by
  unfold NoGetSource
  exact inferInstance

/-! ### Generic list and fold utilities -/

theorem foldl_inv {σ α : Type} (P : σ → Prop) (f : σ → α → σ) (xs : List α)
    (h : ∀ s a, a ∈ xs → P s → P (f s a)) :
    ∀ {s : σ}, P s → P (xs.foldl f s) := by
  induction xs with
  | nil => intro s hs; exact hs
  | cons x xs ih =>
    intro s hs
    exact ih (fun s a ha => h s a (List.mem_cons_of_mem _ ha)) (h s x (List.mem_cons_self _ _) hs)

theorem foldl_fixed {σ α : Type} {f : σ → α → σ} {xs : List α} {s : σ}
    (h : ∀ a, a ∈ xs → f s a = s) : xs.foldl f s = s := by
  induction xs with
  | nil => rfl
  | cons x xs ih =>
    rw [List.foldl_cons, h x (List.mem_cons_self _ _)]
    exact ih (fun a ha => h a (List.mem_cons_of_mem _ ha))

theorem set_getD_self {α : Type} (l : List α) (i : Nat) (d : α) :
    l.set i (l.getD i d) = l := by
  induction l generalizing i with
  | nil => rfl
  | cons x xs ih =>
    cases i with
    | zero => rfl
    | succ n =>
      rw [List.getD_cons_succ]
      show x :: xs.set n (xs.getD n d) = x :: xs
      rw [ih]

theorem getD_set_ne {α : Type} (l : List α) (i j : Nat) (a d : α) (h : j ≠ i) :
    (l.set i a).getD j d = l.getD j d := by
  induction l generalizing i j with
  | nil => rfl
  | cons x xs ih =>
    cases i with
    | zero =>
      cases j with
      | zero => exact absurd rfl h
      | succ m => rfl
    | succ n =>
      cases j with
      | zero => rfl
      | succ m =>
        rw [List.getD_cons_succ]
        show (xs.set n a).getD m d = _
        rw [ih _ _ (fun hc => h (by rw [hc]))]

theorem getD_set_self {α : Type} (l : List α) (i : Nat) (a d : α) (h : i < l.length) :
    (l.set i a).getD i d = a := by
  induction l generalizing i with
  | nil => exact absurd h (by simp)
  | cons x xs ih =>
    cases i with
    | zero => rfl
    | succ n =>
      show (xs.set n a).getD n d = a
      exact ih n (by simpa using h)

theorem bLastIdx_spec {bs : List Bool} {i : Nat} (h : bLastIdx bs = some i) :
    i < bs.length ∧ bs.getD i false = true := by
  induction bs generalizing i with
  | nil => simp [bLastIdx] at h
  | cons b rest ih =>
    rw [bLastIdx] at h
    cases hr : bLastIdx rest with
    | some k =>
      rw [hr] at h
      cases h
      have := ih hr
      exact ⟨by simpa using Nat.succ_lt_succ this.1, by simpa [List.getD_cons_succ] using this.2⟩
    | none =>
      rw [hr] at h
      by_cases hb : b = true
      · subst hb
        simp at h
        subst h
        exact ⟨by simp, rfl⟩
      · simp [hb] at h

theorem getD_map_fn {α β : Type} (f : α → β) (l : List α) (i : Nat) (d : α) :
    (l.map f).getD i (f d) = f (l.getD i d) := by
  induction l generalizing i with
  | nil => rfl
  | cons x xs ih =>
    cases i with
    | zero => rfl
    | succ n => rw [List.map_cons, List.getD_cons_succ, List.getD_cons_succ]; exact ih n

theorem lastIdx?_spec {α : Type} {xs : List α} {p : α → Bool} {i : Nat} (d : α)
    (h : lastIdx? xs p = some i) : i < xs.length ∧ p (xs.getD i d) = true := by
  have h' : bLastIdx (xs.map p) = some i := h
  have hb := bLastIdx_spec h'
  have hlen : i < xs.length := by simpa using hb.1
  refine ⟨hlen, ?_⟩
  have := hb.2
  rwa [show (xs.map p).getD i false = p (xs.getD i d) by
    rw [List.getD_eq_getElem _ _ (by simpa using hlen), List.getD_eq_getElem _ _ hlen]
    simp] at this

theorem lastIdx?_eq_none {α : Type} {xs : List α} {p : α → Bool}
    (h : ∀ x ∈ xs, p x = false) : lastIdx? xs p = none := by
  induction xs with
  | nil => rfl
  | cons x rest ih =>
    have hr : lastIdx? rest p = none := ih (fun a ha => h a (List.mem_cons_of_mem _ ha))
    rw [lastIdx?, List.map_cons, bLastIdx]
    rw [lastIdx?] at hr
    rw [hr, h x (List.mem_cons_self _ _)]
    rfl

/-! ### Fields preserved by the read pass -/

/-- The node fields the read pass never modifies, plus the port count. -/
def nodeSig (n : Node) :
    Option Int × Option String × Option (List (Option String)) × Option (List InPort) ×
      Option Nat :=
  (n.id, n.type, n.widgets_values, n.inputs, n.outputs.map List.length)

/-- The link fields the read pass never modifies. -/
def linkSig (l : Link) : Int × Int × Int := (l.id, l.dst_node, l.dst_slot)

theorem lastIdxNode_congr {ns ms : List Node} (h : ns.map Node.id = ms.map Node.id) (v : Int) :
    lastIdxNode ns v = lastIdxNode ms v := by
  unfold lastIdxNode lastIdx?
  have : ∀ xs : List Node,
      xs.map (fun n => decide (n.id = some v)) =
        (xs.map Node.id).map (fun o => decide (o = some v)) := by
    intro xs; rw [List.map_map]; rfl
  rw [this, this, h]

theorem lastIdxLink_congr {ls ms : List Link} (h : ls.map Link.id = ms.map Link.id) (v : Int) :
    lastIdxLink ls v = lastIdxLink ms v := by
  unfold lastIdxLink lastIdx?
  have : ∀ xs : List Link,
      xs.map (fun l => decide (l.id = v)) =
        (xs.map Link.id).map (fun o => decide (o = v)) := by
    intro xs; rw [List.map_map]; rfl
  rw [this, this, h]

theorem map_id_of_map_nodeSig {ns ms : List Node} (h : ns.map nodeSig = ms.map nodeSig) :
    ns.map Node.id = ms.map Node.id := by
  have : ∀ xs : List Node, xs.map Node.id = (xs.map nodeSig).map Prod.fst := by
    intro xs; rw [List.map_map]; rfl
  rw [this, this, h]

theorem map_id_of_map_linkSig {ls ms : List Link} (h : ls.map linkSig = ms.map linkSig) :
    ls.map Link.id = ms.map Link.id := by
  have : ∀ xs : List Link, xs.map Link.id = (xs.map linkSig).map Prod.fst := by
    intro xs; rw [List.map_map]; rfl
  rw [this, this, h]

/-! ### Frame lemmas for the atomic mutations -/

theorem nodeSig_setOuts (n : Node) (s : Nat) (p : OutPort) (h : (n.outputs).isSome = true) :
    nodeSig { n with outputs := some ((n.outputs.getD []).set s p) } = nodeSig n := by
  cases ho : n.outputs with
  | none => rw [ho] at h; simp at h
  | some os => simp [nodeSig, ho, List.length_set]

theorem setPortLinks_length (ns : List Node) (i s : Nat) (nl : List Int) :
    (setPortLinks ns i s nl).length = ns.length := by
  unfold setPortLinks; simp

theorem setPortLinks_getD_ne (ns : List Node) (i s : Nat) (nl : List Int) (j : Nat) (d : Node)
    (hj : j ≠ i) : (setPortLinks ns i s nl).getD j d = ns.getD j d := by
  unfold setPortLinks; exact getD_set_ne _ _ _ _ _ hj

theorem setPortLinks_sig (ns : List Node) (i s : Nat) (nl : List Int)
    (h : ((ns.getD i dfltNode).outputs).isSome = true) :
    (setPortLinks ns i s nl).map nodeSig = ns.map nodeSig := by
  unfold setPortLinks
  rw [List.map_set, nodeSig_setOuts _ _ _ h,
    show nodeSig (ns.getD i dfltNode) = (ns.map nodeSig).getD i (nodeSig dfltNode) from
      (getD_map_fn nodeSig ns i dfltNode).symm]
  exact set_getD_self _ _ _

theorem add_output_link_frame (st : RunSt) (nid slot lid : Int) :
    (add_output_link st nid slot lid).links = st.links ∧
    (add_output_link st nid slot lid).rewired = st.rewired ∧
    (add_output_link st nid slot lid).skipped = st.skipped := by
  unfold add_output_link
  cases lastIdxNode st.nodes nid with
  | none => exact ⟨rfl, rfl, rfl⟩
  | some i =>
    dsimp only
    split
    · exact ⟨rfl, rfl, rfl⟩
    · exact ⟨rfl, rfl, rfl⟩

theorem outputs_isSome_of_guard {n : Node} {slot : Int}
    (hg : 0 ≤ slot ∧ slot < ((n.outputs.getD []).length : Int)) :
    (n.outputs).isSome = true := by
  cases ho : n.outputs with
  | none => rw [ho] at hg; simp at hg; omega
  | some os => rfl

theorem add_output_link_sig (st : RunSt) (nid slot lid : Int) :
    ((add_output_link st nid slot lid).nodes).map nodeSig = st.nodes.map nodeSig := by
  unfold add_output_link
  cases lastIdxNode st.nodes nid with
  | none => rfl
  | some i =>
    dsimp only
    split
    case isTrue hg => exact setPortLinks_sig _ _ _ _ (outputs_isSome_of_guard hg)
    case isFalse => rfl

theorem remove_output_link_frame (st : RunSt) (oid : Option Int) (slot lid : Int) :
    (remove_output_link st oid slot lid).links = st.links ∧
    (remove_output_link st oid slot lid).rewired = st.rewired ∧
    (remove_output_link st oid slot lid).skipped = st.skipped := by
  unfold remove_output_link
  cases oid with
  | none => exact ⟨rfl, rfl, rfl⟩
  | some v =>
    dsimp only
    cases lastIdxNode st.nodes v with
    | none => exact ⟨rfl, rfl, rfl⟩
    | some i =>
      dsimp only
      split
      · split
        · split
          · exact ⟨rfl, rfl, rfl⟩
          · exact ⟨rfl, rfl, rfl⟩
        · exact ⟨rfl, rfl, rfl⟩
      · exact ⟨rfl, rfl, rfl⟩

theorem remove_output_link_sig (st : RunSt) (oid : Option Int) (slot lid : Int) :
    ((remove_output_link st oid slot lid).nodes).map nodeSig = st.nodes.map nodeSig := by
  unfold remove_output_link
  cases oid with
  | none => rfl
  | some v =>
    dsimp only
    cases lastIdxNode st.nodes v with
    | none => rfl
    | some i =>
      dsimp only
      split
      case isTrue hg =>
        split
        · split
          · exact setPortLinks_sig _ _ _ _ (outputs_isSome_of_guard hg)
          · rfl
        · rfl
      case isFalse => rfl

theorem processLid_skipped (nm : String) (tr : Src) (gid : Option Int) (s : Nat)
    (st : RunSt) (lid : Int) : (processLid nm tr gid s st lid).skipped = st.skipped := by
  unfold processLid
  cases lastIdxLink st.links lid with
  | none => rfl
  | some li =>
    dsimp only
    rw [(remove_output_link_frame _ _ _ _).2.2, (add_output_link_frame _ _ _ _).2.2]

theorem processLid_rewired (nm : String) (tr : Src) (gid : Option Int) (s : Nat)
    (st : RunSt) (lid : Int) :
    (processLid nm tr gid s st lid).rewired =
      st.rewired ++
        (if (lastIdxLink st.links lid).isSome then [(nm, lid, gid, tr.1)] else []) := by
  unfold processLid
  cases lastIdxLink st.links lid with
  | none => simp
  | some li =>
    dsimp only
    rw [(remove_output_link_frame _ _ _ _).2.1, (add_output_link_frame _ _ _ _).2.1]
    simp

theorem processLid_linkSig (nm : String) (tr : Src) (gid : Option Int) (s : Nat)
    (st : RunSt) (lid : Int) :
    ((processLid nm tr gid s st lid).links).map linkSig = st.links.map linkSig := by
  unfold processLid
  cases lastIdxLink st.links lid with
  | none => rfl
  | some li =>
    dsimp only
    rw [(remove_output_link_frame _ _ _ _).1, (add_output_link_frame _ _ _ _).1]
    rw [List.map_set,
      show linkSig (rewriteLink tr (st.links.getD li dfltLink)) =
        linkSig (st.links.getD li dfltLink) from rfl,
      show linkSig (st.links.getD li dfltLink) = (st.links.map linkSig).getD li (linkSig dfltLink)
        from (getD_map_fn linkSig st.links li dfltLink).symm]
    exact set_getD_self _ _ _

theorem processLid_sig (nm : String) (tr : Src) (gid : Option Int) (s : Nat)
    (st : RunSt) (lid : Int) :
    ((processLid nm tr gid s st lid).nodes).map nodeSig = st.nodes.map nodeSig := by
  unfold processLid
  cases lastIdxLink st.links lid with
  | none => rfl
  | some li =>
    dsimp only
    rw [remove_output_link_sig, add_output_link_sig]

theorem processSlot_linkSig (nm : String) (tr : Src) (gid : Option Int) (i : Nat)
    (st : RunSt) (s : Nat) :
    ((processSlot nm tr gid i st s).links).map linkSig = st.links.map linkSig := by
  unfold processSlot
  exact foldl_inv (fun (st' : RunSt) => st'.links.map linkSig = st.links.map linkSig) _ _
    (fun s' a _ hP => (processLid_linkSig nm tr gid s s' a).trans hP) rfl

theorem processSlot_sig (nm : String) (tr : Src) (gid : Option Int) (i : Nat)
    (st : RunSt) (s : Nat) :
    ((processSlot nm tr gid i st s).nodes).map nodeSig = st.nodes.map nodeSig := by
  unfold processSlot
  exact foldl_inv (fun (st' : RunSt) => st'.nodes.map nodeSig = st.nodes.map nodeSig) _ _
    (fun s' a _ hP => (processLid_sig nm tr gid s s' a).trans hP) rfl

theorem processSlot_skipped (nm : String) (tr : Src) (gid : Option Int) (i : Nat)
    (st : RunSt) (s : Nat) :
    (processSlot nm tr gid i st s).skipped = st.skipped := by
  unfold processSlot
  exact foldl_inv (fun (st' : RunSt) => st'.skipped = st.skipped) _ _
    (fun s' a _ hP => (processLid_skipped nm tr gid s s' a).trans hP) rfl

theorem processNode_linkSig (map : List (String × Src)) (st : RunSt) (i : Nat) :
    ((processNode map st i).links).map linkSig = st.links.map linkSig := by
  unfold processNode
  dsimp only
  split
  · split
    · rfl
    · exact foldl_inv (fun (st' : RunSt) => st'.links.map linkSig = st.links.map linkSig) _ _
        (fun s' a _ hP => (processSlot_linkSig _ _ _ _ s' a).trans hP) rfl
  · rfl

theorem processNode_sig (map : List (String × Src)) (st : RunSt) (i : Nat) :
    ((processNode map st i).nodes).map nodeSig = st.nodes.map nodeSig := by
  unfold processNode
  dsimp only
  split
  · split
    · rfl
    · exact foldl_inv (fun (st' : RunSt) => st'.nodes.map nodeSig = st.nodes.map nodeSig) _ _
        (fun s' a _ hP => (processSlot_sig _ _ _ _ s' a).trans hP) rfl
  · rfl

theorem readPass_linkSig (map : List (String × Src)) (st : RunSt) :
    ((readPass map st).links).map linkSig = st.links.map linkSig := by
  unfold readPass
  exact foldl_inv (fun (st' : RunSt) => st'.links.map linkSig = st.links.map linkSig) _ _
    (fun s' a _ hP => (processNode_linkSig map s' a).trans hP) rfl

theorem readPass_sig (map : List (String × Src)) (st : RunSt) :
    ((readPass map st).nodes).map nodeSig = st.nodes.map nodeSig := by
  unfold readPass
  exact foldl_inv (fun (st' : RunSt) => st'.nodes.map nodeSig = st.nodes.map nodeSig) _ _
    (fun s' a _ hP => (processNode_sig map s' a).trans hP) rfl

/-! ### The deep copy is a complete structural clone -/

theorem deepcopyList_id {α : Type} (f : α → α) (h : ∀ x, f x = x) :
    ∀ xs : List α, deepcopyList f xs = xs := by
  intro xs
  induction xs with
  | nil => rfl
  | cons x xs ih => rw [deepcopyList, h, ih]

theorem deepcopyOpt_id {α : Type} (f : α → α) (h : ∀ x, f x = x) :
    ∀ o : Option α, deepcopyOpt f o = o := by
  intro o
  cases o with
  | none => rfl
  | some x => rw [deepcopyOpt, h]

theorem deepcopyOpt_id_id {α : Type} (o : Option α) : deepcopyOpt id o = o :=
  deepcopyOpt_id id (fun x => rfl) o

theorem deepcopyList_id_id {α : Type} (xs : List α) : deepcopyList id xs = xs :=
  deepcopyList_id id (fun x => rfl) xs

theorem deepcopyInPort_eq (p : InPort) : deepcopyInPort p = p := by
  rw [deepcopyInPort, deepcopyOpt_id_id]

theorem deepcopyOutPort_eq (p : OutPort) : deepcopyOutPort p = p := by
  rw [deepcopyOutPort, deepcopyOpt_id (deepcopyList id) deepcopyList_id_id]

theorem deepcopyNode_eq (n : Node) : deepcopyNode n = n := by
  unfold deepcopyNode
  rw [deepcopyOpt_id_id, deepcopyOpt_id_id,
    deepcopyOpt_id (deepcopyList (deepcopyOpt id))
      (deepcopyList_id (deepcopyOpt id) deepcopyOpt_id_id),
    deepcopyOpt_id (deepcopyList deepcopyInPort)
      (deepcopyList_id deepcopyInPort deepcopyInPort_eq),
    deepcopyOpt_id (deepcopyList deepcopyOutPort)
      (deepcopyList_id deepcopyOutPort deepcopyOutPort_eq)]

theorem deepcopyRVal_eq (v : RVal) : deepcopyRVal v = v := by
  cases v with
  | num c => rfl
  | skippedV s => rw [deepcopyRVal, deepcopyList_id_id]
  | conflictsV c => rw [deepcopyRVal, deepcopyList_id_id]
  | other t => rfl

theorem deepcopyRKV_eq (kv : String × RVal) : deepcopyRKV kv = kv := by
  rw [deepcopyRKV, deepcopyRVal_eq]

theorem deepcopyExtra_eq (e : Extra) : deepcopyExtra e = e := by
  unfold deepcopyExtra
  rw [deepcopyOpt_id (deepcopyList deepcopyRKV) (deepcopyList_id deepcopyRKV deepcopyRKV_eq),
    deepcopyList_id_id]

theorem deepcopy_eq (wf : Workflow) : deepcopy wf = wf := by
  unfold deepcopy
  rw [deepcopyOpt_id (deepcopyList deepcopyNode)
      (deepcopyList_id deepcopyNode deepcopyNode_eq),
    deepcopyOpt_id (deepcopyList deepcopyLink)
      (deepcopyList_id deepcopyLink (fun l => rfl)),
    deepcopyOpt_id deepcopyExtra deepcopyExtra_eq]

/-! ### C4: the caller's graph is never mutated -/

/-- C4: the engine operates on a deep copy of the caller's graph (source
line 86); in this value-level embedding every mutation is explicit state
threading on that copy, so the caller's graph value is untouched both on
success and on failure.  The theorem checks that the structural clone is
complete — identical to the original in nodes, links and the extra area,
including nested per-port link-id lists — and that the call is a pure
function of that copy, for both values of `drop_setget`. -/
theorem caller_graph_never_mutated (wf : Workflow) (drop : Bool) :
    deepcopy wf = wf ∧
    convert_setget_to_hardlines wf drop = convert_setget_to_hardlines (deepcopy wf) drop :=
  ⟨deepcopy_eq wf, by rw [deepcopy_eq]⟩

/-! ### C3: which inputs make the call raise -/

/-- C3 is falsified: `badIdWf` has both a `nodes` and a `links` collection,
yet the call raises (`KeyError` at the `nodes_by_id` construction, line 90),
because one node lacks an `id` field — an input the claim says is
tolerated. -/
theorem rewire_raises_on_missing_node_id :
    isError (convert_setget_to_hardlines badIdWf false) = true ∧
    badIdWf.nodes.isSome = true ∧ badIdWf.links.isSome = true := by
  exact ⟨rfl, rfl, rfl⟩

/-- A successful call computes `convertCore` on the copy's collections. -/
theorem convert_ok_of (wf : Workflow) (drop : Bool) (ns : List Node) (ls : List Link)
    (hn : wf.nodes = some ns) (hl : wf.links = some ls)
    (hall : ns.all (fun n => n.id.isSome) = true) :
    convert_setget_to_hardlines wf drop = Except.ok (convertCore ns ls wf.extra drop) := by
  unfold convert_setget_to_hardlines
  dsimp only
  rw [deepcopy_eq, hn, hl]
  dsimp only
  rw [if_pos hall]

/-- C3 amended: the call raises exactly when the graph lacks a `nodes`
collection, lacks a `links` collection, or contains a node without an `id`
field; every other (modelled) input returns a transformed graph. -/
theorem rewire_error_iff (wf : Workflow) (drop : Bool) :
    isError (convert_setget_to_hardlines wf drop) = true ↔
      (wf.nodes = none ∨ wf.links = none ∨ ∃ n ∈ wf.nodes.getD [], n.id = none) := by
  cases hn : wf.nodes with
  | none =>
    apply iff_of_true
    · unfold convert_setget_to_hardlines
      dsimp only
      rw [deepcopy_eq, hn]
      rfl
    · exact Or.inl rfl
  | some ns =>
    cases hl : wf.links with
    | none =>
      apply iff_of_true
      · unfold convert_setget_to_hardlines
        dsimp only
        rw [deepcopy_eq, hn, hl]
        rfl
      · exact Or.inr (Or.inl rfl)
    | some ls =>
      cases hall : ns.all (fun n => n.id.isSome) with
      | true =>
        rw [convert_ok_of wf drop ns ls hn hl hall]
        rw [List.all_eq_true] at hall
        apply iff_of_false
        · simp [isError]
        · rintro (h | h | ⟨n, hmem, hid⟩)
          · exact Option.noConfusion h
          · exact Option.noConfusion h
          · have := hall n (by simpa using hmem)
            rw [hid] at this
            exact Bool.noConfusion this
      | false =>
        apply iff_of_true
        · unfold convert_setget_to_hardlines
          dsimp only
          rw [deepcopy_eq, hn, hl]
          dsimp only
          rw [if_neg (by simp [hall])]
          rfl
        · right; right
          have hne : ¬ ∀ n ∈ ns, n.id.isSome = true := by
            intro hforall
            rw [← List.all_eq_true] at hforall
            rw [hall] at hforall
            exact Bool.noConfusion hforall
          push_neg at hne
          obtain ⟨n, hmem, hfalse⟩ := hne
          refine ⟨n, by simpa using hmem, ?_⟩
          cases hcase : n.id with
          | none => rfl
          | some v => rw [hcase] at hfalse; simp at hfalse

/-! ### C9: how the report is attached to the extra area -/

theorem lookup_cons_key_self {β : Type} (k : String) (b : β) (rest : List (String × β)) :
    List.lookup k ((k, b) :: rest) = some b := by
  rw [List.lookup_cons, beq_self_eq_true]

theorem lookup_cons_key_ne {β : Type} (k a : String) (b : β) (rest : List (String × β))
    (h : k ≠ a) : List.lookup k ((a, b) :: rest) = List.lookup k rest := by
  rw [List.lookup_cons, beq_eq_false_iff_ne.mpr h]

theorem lookup_setKey_self (es : List (String × RVal)) (k : String) (v : RVal) :
    List.lookup k (setKey es k v) = some v := by
  induction es with
  | nil => exact lookup_cons_key_self k v []
  | cons e rest ih =>
    by_cases h : e.1 = k
    · rw [show e = (e.1, e.2) from rfl, setKey, if_pos h]
      exact lookup_cons_key_self k v rest
    · rw [show e = (e.1, e.2) from rfl, setKey, if_neg h]
      rw [lookup_cons_key_ne _ _ _ _ (fun hc => h hc.symm), ih]

theorem lookup_setKey_ne (es : List (String × RVal)) (k k' : String) (v : RVal)
    (h : k' ≠ k) : List.lookup k' (setKey es k v) = List.lookup k' es := by
  induction es with
  | nil => rw [show setKey [] k v = [(k, v)] from rfl, lookup_cons_key_ne _ _ _ _ h]
  | cons e rest ih =>
    by_cases he : e.1 = k
    · rw [show e = (e.1, e.2) from rfl, setKey, if_pos he, he]
      rw [lookup_cons_key_ne _ _ _ _ h, lookup_cons_key_ne _ _ _ _ h]
    · rw [show e = (e.1, e.2) from rfl, setKey, if_neg he]
      by_cases hk : k' = e.1
      · subst hk
        rw [lookup_cons_key_self, lookup_cons_key_self]
      · rw [lookup_cons_key_ne _ _ _ _ hk, lookup_cons_key_ne _ _ _ _ hk, ih]

theorem setReport_hardline (e : Option Extra) (c : Nat) (sk : List SkipEntry)
    (cf : List ConflictEntry) :
    (setReport e c sk cf).hardline =
      some (setKey (setKey (setKey ((e.getD ⟨none, []⟩).hardline.getD [])
        "rewired_count" (RVal.num c)) "skipped_gets" (RVal.skippedV sk))
        "conflicts" (RVal.conflictsV cf)) := rfl

theorem prior_of_extra (wf : Workflow) :
    ((wf.extra.getD ⟨none, []⟩).hardline).getD [] = priorReport wf := by
  rcases wf with ⟨n, l, e⟩
  cases e with
  | none => rfl
  | some ex => rfl

theorem okReport_convertCore (ns : List Node) (ls : List Link) (e : Option Extra)
    (drop : Bool) :
    okReport (Except.ok (convertCore ns ls e drop)) =
      setKey (setKey (setKey ((e.getD ⟨none, []⟩).hardline.getD [])
        "rewired_count" (RVal.num (engineReport ns ls).1))
        "skipped_gets" (RVal.skippedV (engineReport ns ls).2.1))
        "conflicts" (RVal.conflictsV (engineReport ns ls).2.2) := rfl

/-- C9 is falsified: on `c9Wf` the prior value stored under the report key
is an object with an unrelated key `junk`; after the call that key is still
there (Python `setdefault` merges into the existing object), so the stored
report is not exactly the three-key object and the prior value was not
replaced. -/
theorem report_key_not_replaced :
    okReport (convert_setget_to_hardlines c9Wf false) ≠
      [("rewired_count", RVal.num 0), ("skipped_gets", RVal.skippedV []),
        ("conflicts", RVal.conflictsV [])] ∧
    List.lookup "junk" (okReport (convert_setget_to_hardlines c9Wf false)) =
      some (RVal.other 7) := by
  constructor
  · decide
  · decide

/-- C9 amended: on success the three report keys are written (overwriting
any previous values under those keys) into the object already stored under
`extra.__hardline_rewire` (an empty object when absent), and every other
key of that object is preserved rather than replaced. -/
theorem report_written_under_key (wf : Workflow) (drop : Bool) (ns : List Node)
    (ls : List Link) (hn : wf.nodes = some ns) (hl : wf.links = some ls)
    (hid : ns.all (fun n => n.id.isSome) = true) :
    List.lookup "rewired_count" (okReport (convert_setget_to_hardlines wf drop)) =
      some (RVal.num (engineReport ns ls).1) ∧
    List.lookup "skipped_gets" (okReport (convert_setget_to_hardlines wf drop)) =
      some (RVal.skippedV (engineReport ns ls).2.1) ∧
    List.lookup "conflicts" (okReport (convert_setget_to_hardlines wf drop)) =
      some (RVal.conflictsV (engineReport ns ls).2.2) ∧
    ∀ k, k ≠ "rewired_count" → k ≠ "skipped_gets" → k ≠ "conflicts" →
      List.lookup k (okReport (convert_setget_to_hardlines wf drop)) =
        List.lookup k (priorReport wf) := by
  rw [convert_ok_of wf drop ns ls hn hl hid, okReport_convertCore, prior_of_extra]
  refine ⟨?_, ?_, ?_, ?_⟩
  · rw [lookup_setKey_ne _ _ _ _ (by decide), lookup_setKey_ne _ _ _ _ (by decide),
      lookup_setKey_self]
  · rw [lookup_setKey_ne _ _ _ _ (by decide), lookup_setKey_self]
  · rw [lookup_setKey_self]
  · intro k h1 h2 h3
    rw [lookup_setKey_ne _ _ _ _ h3, lookup_setKey_ne _ _ _ _ h2,
      lookup_setKey_ne _ _ _ _ h1]

/-- Applies `report_written_under_key` to `c9Wf`: the unrelated key of the
prior report object reads back unchanged. -/
theorem report_written_under_key_witness :
    List.lookup "junk" (okReport (convert_setget_to_hardlines c9Wf false)) =
      List.lookup "junk" (priorReport c9Wf) :=
  (report_written_under_key c9Wf false [] [] rfl rfl rfl).2.2.2 "junk"
    (by decide) (by decide) (by decide)

/-! ### C8: graphs without routing nodes pass through unchanged -/

theorem resolveSet_not_set (ls : List Link) (n : Node) (h : ¬ n.type = some "SetNode") :
    resolveSet ls n = none := by
  unfold resolveSet
  rw [if_neg h]

theorem setPass_no_set (ns : List Node) (ls : List Link)
    (h : ∀ n ∈ ns, ¬ n.type = some "SetNode") : setPass ns ls = ([], []) := by
  unfold setPass
  apply foldl_fixed
  intro n hn
  unfold setPassStep
  rw [resolveSet_not_set ls n (h n hn)]

theorem processNode_not_get (map : List (String × Src)) (st : RunSt) (i : Nat)
    (h : ¬ (st.nodes.getD i dfltNode).type = some "GetNode") :
    processNode map st i = st := by
  unfold processNode
  dsimp only
  rw [if_neg h]

theorem readPass_no_get (map : List (String × Src)) (ns : List Node) (ls : List Link)
    (tr : List TraceEntry) (sk : List SkipEntry)
    (h : ∀ n ∈ ns, ¬ n.type = some "GetNode") :
    readPass map ⟨ns, ls, tr, sk⟩ = ⟨ns, ls, tr, sk⟩ := by
  unfold readPass
  apply foldl_fixed
  intro i _
  apply processNode_not_get
  dsimp only
  by_cases hlt : i < ns.length
  · rw [List.getD_eq_getElem _ _ hlt]
    exact h _ (List.getElem_mem _)
  · rw [List.getD_eq_default _ _ (Nat.le_of_not_lt hlt)]
    intro hc
    exact Option.noConfusion hc

/-- C8: on a graph with no WriteNode and no ReadNode the call returns the
graph with nodes and links unchanged (for both values of `drop_setget`),
and the only difference is the report — with zero rewired count, empty
skipped list and empty conflicts — attached to the extra area. -/
theorem no_routing_nodes_graph_unchanged (wf : Workflow) (drop : Bool) (ns : List Node)
    (ls : List Link) (hn : wf.nodes = some ns) (hl : wf.links = some ls)
    (hid : ns.all (fun n => n.id.isSome) = true)
    (hnr : ∀ n ∈ ns, isRouting n = false) :
    convert_setget_to_hardlines wf drop =
      Except.ok
        { nodes := some ns, links := some ls, extra := some (setReport wf.extra 0 [] []) } := by
  have hrouting : ∀ n ∈ ns, ¬ n.type = some "SetNode" ∧ ¬ n.type = some "GetNode" := by
    intro n hm
    have := hnr n hm
    simp only [isRouting] at this
    constructor
    · intro hc; rw [hc] at this; simp at this
    · intro hc; rw [hc] at this; simp at this
  have hset : setPass ns ls = ([], []) :=
    setPass_no_set ns ls (fun n hm => (hrouting n hm).1)
  have hread : readPass (setPass ns ls).1 (⟨ns, ls, [], []⟩ : RunSt) = ⟨ns, ls, [], []⟩ :=
    readPass_no_get _ ns ls [] [] (fun n hm => (hrouting n hm).2)
  rw [convert_ok_of wf drop ns ls hn hl hid]
  congr 1
  unfold convertCore runEngine
  dsimp only
  rw [hread, hset]
  dsimp only
  have hfilter : ns.filter (fun n => ¬ isRouting n) = ns := by
    rw [List.filter_eq_self]
    intro n hm
    simp [hnr n hm]
  have hdropped : droppedIds ns = [] := by
    unfold droppedIds
    rw [List.filterMap_eq_nil_iff]
    intro n hm
    rw [hnr n hm]
    simp
  have hkeep : ls.filter (keepLink (droppedIds ns)) = ls := by
    rw [List.filter_eq_self]
    intro l _
    rw [hdropped]
    simp [keepLink]
  cases drop with
  | false => rfl
  | true =>
    rw [if_pos rfl, if_pos rfl, hfilter, hkeep]
    rfl

/-- Applies `no_routing_nodes_graph_unchanged` to `plainWf` with pruning
enabled. -/
theorem no_routing_nodes_graph_unchanged_witness :
    convert_setget_to_hardlines plainWf true =
      Except.ok
        { nodes := plainWf.nodes, links := plainWf.links,
          extra := some (setReport plainWf.extra 0 [] []) } :=
  no_routing_nodes_graph_unchanged plainWf true _ _ rfl rfl (by decide) (by decide)

/-! ### C2: first-seen-wins name resolution and conflict recording -/

theorem firstBinding_append (ls : List Link) (xs ys : List Node) (nm : String) :
    firstBinding ls (xs ++ ys) nm =
      match firstBinding ls xs nm with
      | some p => some p
      | none => firstBinding ls ys nm := by
  induction xs with
  | nil => rfl
  | cons n xs ih =>
    rw [List.cons_append]
    simp only [firstBinding]
    cases h : resolveSet ls n with
    | none => exact ih
    | some p =>
      dsimp only
      by_cases hp : p.1 = nm
      · rw [if_pos hp, if_pos hp]
      · rw [if_neg hp, if_neg hp]
        exact ih

theorem lookup_setPassStep (ls : List Link) (acc : List (String × Src) × List ConflictEntry)
    (n : Node) (pre : List Node)
    (hmap : ∀ nm, List.lookup nm acc.1 = firstBinding ls pre nm) (nm : String) :
    List.lookup nm (setPassStep ls acc n).1 = firstBinding ls (pre ++ [n]) nm := by
  rw [firstBinding_append]
  unfold setPassStep
  cases h : resolveSet ls n with
  | none =>
    dsimp only
    rw [hmap nm]
    cases hfb : firstBinding ls pre nm with
    | some p => rfl
    | none =>
      simp only [firstBinding, h]
  | some p =>
    obtain ⟨nm', cand⟩ := p
    dsimp only
    rw [hmap nm']
    cases hfb' : firstBinding ls pre nm' with
    | some prev =>
      dsimp only
      by_cases hpc : prev ≠ cand
      · rw [if_pos hpc]
        dsimp only
        rw [hmap nm]
        cases hfb : firstBinding ls pre nm with
        | some q => rfl
        | none =>
          simp only [firstBinding, h]
          by_cases hnm : nm' = nm
          · rw [hnm] at hfb'
            rw [hfb'] at hfb
            exact Option.noConfusion hfb
          · rw [if_neg hnm]
      · rw [if_neg hpc]
        push_neg at hpc
        dsimp only
        by_cases hnm : nm = nm'
        · subst hnm
          rw [lookup_cons_key_self, hfb', hpc]
        · rw [lookup_cons_key_ne _ _ _ _ hnm, hmap nm]
          cases hfb : firstBinding ls pre nm with
          | some q => rfl
          | none =>
            simp only [firstBinding, h]
            rw [if_neg (fun hc => hnm hc.symm)]
    | none =>
      dsimp only
      by_cases hnm : nm = nm'
      · subst hnm
        rw [lookup_cons_key_self, hfb']
        simp [firstBinding, h]
      · rw [lookup_cons_key_ne _ _ _ _ hnm, hmap nm]
        cases hfb : firstBinding ls pre nm with
        | some q => rfl
        | none =>
          simp only [firstBinding, h]
          rw [if_neg (fun hc => hnm hc.symm)]

theorem setPass_lookup (ns : List Node) (ls : List Link) (nm : String) :
    List.lookup nm (setPass ns ls).1 = firstBinding ls ns nm := by
  suffices h : ∀ (rest pre : List Node) (acc : List (String × Src) × List ConflictEntry),
      (∀ nm', List.lookup nm' acc.1 = firstBinding ls pre nm') →
      ∀ nm', List.lookup nm' (rest.foldl (setPassStep ls) acc).1 =
        firstBinding ls (pre ++ rest) nm' by
    have := h ns [] ([], []) (fun nm' => rfl) nm
    simpa using this
  intro rest
  induction rest with
  | nil =>
    intro pre acc hmap nm'
    rw [List.foldl_nil, List.append_nil]
    exact hmap nm'
  | cons n rest ih =>
    intro pre acc hmap nm'
    rw [List.foldl_cons]
    have := ih (pre ++ [n]) (setPassStep ls acc n) (lookup_setPassStep ls acc n pre hmap) nm'
    rw [this, List.append_assoc]
    rfl

theorem setPass_conflicts_aux (ls : List Link) :
    ∀ (rest pre : List Node) (acc : List (String × Src) × List ConflictEntry),
      (∀ nm, List.lookup nm acc.1 = firstBinding ls pre nm) →
      (rest.foldl (setPassStep ls) acc).2 = acc.2 ++ conflictsFrom ls pre rest := by
  intro rest
  induction rest with
  | nil =>
    intro pre acc _
    rw [List.foldl_nil, conflictsFrom, List.append_nil]
  | cons n rest ih =>
    intro pre acc hmap
    rw [List.foldl_cons, conflictsFrom]
    rw [ih (pre ++ [n]) _ (lookup_setPassStep ls acc n pre hmap)]
    have hstep : (setPassStep ls acc n).2 = acc.2 ++ conflictContrib ls pre n := by
      unfold setPassStep conflictContrib
      cases h : resolveSet ls n with
      | none => simp
      | some p =>
        obtain ⟨nm', cand⟩ := p
        dsimp only
        rw [hmap nm']
        cases hfb : firstBinding ls pre nm' with
        | some prev =>
          dsimp only
          by_cases hpc : prev ≠ cand
          · rw [if_pos hpc, if_pos hpc]
          · rw [if_neg hpc, if_neg hpc]
            simp
        | none => simp
    rw [hstep, List.append_assoc]

theorem conflictsFrom_prev (ls : List Link) :
    ∀ (rest pre : List Node) (e : ConflictEntry), e ∈ conflictsFrom ls pre rest →
      firstBinding ls (pre ++ rest) e.1 = some e.2.1 := by
  intro rest
  induction rest with
  | nil =>
    intro pre e he
    rw [conflictsFrom] at he
    exact absurd he (List.not_mem_nil e)
  | cons n rest ih =>
    intro pre e he
    rw [conflictsFrom, List.mem_append] at he
    cases he with
    | inl hc =>
      unfold conflictContrib at hc
      cases h : resolveSet ls n with
      | none => rw [h] at hc; exact absurd hc (List.not_mem_nil e)
      | some p =>
        rw [h] at hc
        obtain ⟨nm', cand⟩ := p
        dsimp only at hc
        cases hfb : firstBinding ls pre nm' with
        | none => rw [hfb] at hc; exact absurd hc (List.not_mem_nil e)
        | some prev =>
          rw [hfb] at hc
          dsimp only at hc
          by_cases hpc : prev ≠ cand
          · rw [if_pos hpc, List.mem_singleton] at hc
            subst hc
            dsimp only
            rw [show pre ++ n :: rest = (pre ++ [n]) ++ rest from by
                rw [List.append_assoc]; rfl]
            rw [firstBinding_append, firstBinding_append, hfb]
          · rw [if_neg hpc] at hc
            exact absurd hc (List.not_mem_nil e)
    | inr htail =>
      have := ih (pre ++ [n]) e htail
      rw [List.append_assoc] at this
      exact this

/-- C2: the resolution index holds, for every name, the triple of the first
WriteNode in node order that successfully resolved it; the conflicts list
is exactly one entry `(name, firstBinding, conflictingBinding, writeNodeId)`
per later WriteNode whose resolved triple differs from the first-seen one
(an identical later triple contributes nothing); and the read pass resolves
every ReadNode name through that same first-seen index. -/
theorem first_seen_binding_wins (ns : List Node) (ls : List Link) :
    (∀ nm, List.lookup nm (setPass ns ls).1 = firstBinding ls ns nm) ∧
    (setPass ns ls).2 = conflictsFrom ls [] ns ∧
    (∀ e ∈ (setPass ns ls).2, firstBinding ls ns e.1 = some e.2.1) ∧
    (∀ n : Node, resolveGet (setPass ns ls).1 n =
      match firstWidget n with
      | none => none
      | some nm =>
        match firstBinding ls ns nm with
        | none => none
        | some tr => some (nm, tr)) := by
  have hconf : (setPass ns ls).2 = conflictsFrom ls [] ns := by
    have := setPass_conflicts_aux ls ns [] ([], []) (fun nm => rfl)
    simpa using this
  refine ⟨setPass_lookup ns ls, hconf, ?_, ?_⟩
  · intro e he
    rw [hconf] at he
    have := conflictsFrom_prev ls ns [] e he
    simpa using this
  · intro n
    unfold resolveGet
    cases firstWidget n with
    | none => rfl
    | some nm =>
      dsimp only
      rw [setPass_lookup]

/-- Applies `first_seen_binding_wins` to `cfWf`, whose two WriteNodes bind
`X` to different triples: the index keeps the first triple and the
conflicts list holds exactly the second binding. -/
theorem first_seen_binding_wins_witness :
    List.lookup "X" (setPass (cfWf.nodes.getD []) (cfWf.links.getD [])).1 =
      some ((5 : Int), (0 : Int), "T") ∧
    (setPass (cfWf.nodes.getD []) (cfWf.links.getD [])).2 =
      [("X", ((5 : Int), (0 : Int), "T"), ((6 : Int), (1 : Int), "U"), some 7)] := by
  constructor
  · rw [(first_seen_binding_wins (cfWf.nodes.getD []) (cfWf.links.getD [])).1 "X"]
    decide
  · rw [(first_seen_binding_wins (cfWf.nodes.getD []) (cfWf.links.getD [])).2.1]
    decide

/-! ### C5: pruning drops routing nodes and every link touching them -/

theorem droppedIds_eq_of_sig {ns ms : List Node} (h : ns.map nodeSig = ms.map nodeSig) :
    droppedIds ns = droppedIds ms := by
  have hfact : ∀ xs : List Node,
      droppedIds xs = (xs.map nodeSig).filterMap
        (fun sg => if sg.2.1 = some "SetNode" ∨ sg.2.1 = some "GetNode" then sg.1 else none) := by
    intro xs
    unfold droppedIds
    rw [List.filterMap_map]
    apply List.filterMap_congr
    intro n _
    dsimp only [Function.comp, nodeSig]
    by_cases hr : n.type = some "SetNode" ∨ n.type = some "GetNode"
    · rw [if_pos (by simpa [isRouting] using hr), if_pos hr]
    · rw [if_neg (by simpa [isRouting] using hr), if_neg hr]
  rw [hfact, hfact, h]

theorem keepLink_true_iff (d : List Int) (l : Link) :
    keepLink d l = true ↔ l.src_node ∉ d ∧ l.dst_node ∉ d := by
  simp [keepLink, not_or]

/-- C5: with dropping enabled no routing node survives in the node
collection, no surviving link touches a dropped routing node id at either
endpoint, and the surviving nodes and links are subsequences (order and
all six fields intact) of the collections as they stood after the rewrite
pass — a pure filter, with no re-indexing. -/
theorem pruning_removes_routing (ns : List Node) (ls : List Link) (e : Option Extra) :
    (∀ n ∈ (convertCore ns ls e true).nodes.getD [], isRouting n = false) ∧
    (∀ l ∈ (convertCore ns ls e true).links.getD [],
      l.src_node ∉ droppedIds ns ∧ l.dst_node ∉ droppedIds ns) ∧
    List.Sublist ((convertCore ns ls e true).nodes.getD []) ((runEngine ns ls).1.nodes) ∧
    List.Sublist ((convertCore ns ls e true).links.getD []) ((runEngine ns ls).1.links) := by
  have hdropped : droppedIds ((runEngine ns ls).1.nodes) = droppedIds ns := by
    apply droppedIds_eq_of_sig
    exact readPass_sig (setPass ns ls).1 ⟨ns, ls, [], []⟩
  have hnodes : (convertCore ns ls e true).nodes.getD [] =
      ((runEngine ns ls).1.nodes).filter (fun n => ¬ isRouting n) := rfl
  have hlinks : (convertCore ns ls e true).links.getD [] =
      ((runEngine ns ls).1.links).filter (keepLink (droppedIds ((runEngine ns ls).1.nodes))) := rfl
  refine ⟨?_, ?_, ?_, ?_⟩
  · intro n hm
    rw [hnodes] at hm
    have := (List.mem_filter.mp hm).2
    simpa using this
  · intro l hm
    rw [hlinks] at hm
    have := (List.mem_filter.mp hm).2
    rw [hdropped] at this
    exact (keepLink_true_iff _ _).mp this
  · rw [hnodes]
    exact List.filter_sublist _
  · rw [hlinks]
    exact List.filter_sublist _

/-- Applies `pruning_removes_routing` to the spec's worked example: the
first surviving node is not a routing node. -/
theorem pruning_removes_routing_witness :
    isRouting (((convertCore (exWf.nodes.getD []) (exWf.links.getD []) none
      true).nodes.getD []).getD 0 dfltNode) = false := by
  apply (pruning_removes_routing (exWf.nodes.getD []) (exWf.links.getD []) none).1
  decide

/-! ### Toolbox for the read-pass invariant -/

theorem getD_mem {α : Type} {l : List α} {i : Nat} (d : α) (h : i < l.length) :
    l.getD i d ∈ l := by
  rw [List.getD_eq_getElem _ _ h]
  exact List.getElem_mem _

theorem map_sig_length {ns ms : List Node} (h : ns.map nodeSig = ms.map nodeSig) :
    ns.length = ms.length := by
  have := congrArg List.length h
  simpa using this

theorem map_linkSig_length {ls ms : List Link} (h : ls.map linkSig = ms.map linkSig) :
    ls.length = ms.length := by
  have := congrArg List.length h
  simpa using this

theorem nodeSig_getD {ns ms : List Node} (h : ns.map nodeSig = ms.map nodeSig) (j : Nat) :
    nodeSig (ns.getD j dfltNode) = nodeSig (ms.getD j dfltNode) := by
  rw [← getD_map_fn nodeSig ns j dfltNode, ← getD_map_fn nodeSig ms j dfltNode, h]

theorem linkSig_getD {ls ms : List Link} (h : ls.map linkSig = ms.map linkSig) (p : Nat) :
    linkSig (ls.getD p dfltLink) = linkSig (ms.getD p dfltLink) := by
  rw [← getD_map_fn linkSig ls p dfltLink, ← getD_map_fn linkSig ms p dfltLink, h]

theorem nodeSig_parts {n m : Node} (h : nodeSig n = nodeSig m) :
    n.id = m.id ∧ n.type = m.type ∧ n.widgets_values = m.widgets_values ∧
    n.inputs = m.inputs ∧ n.outputs.map List.length = m.outputs.map List.length := by
  unfold nodeSig at h
  exact ⟨congrArg (fun q => q.1) h, congrArg (fun q => q.2.1) h,
    congrArg (fun q => q.2.2.1) h, congrArg (fun q => q.2.2.2.1) h,
    congrArg (fun q => q.2.2.2.2) h⟩

theorem linkSig_parts {l m : Link} (h : linkSig l = linkSig m) :
    l.id = m.id ∧ l.dst_node = m.dst_node ∧ l.dst_slot = m.dst_slot := by
  unfold linkSig at h
  exact ⟨congrArg (fun q => q.1) h, congrArg (fun q => q.2.1) h,
    congrArg (fun q => q.2.2) h⟩

theorem bLastIdx_none_iff {bs : List Bool} :
    bLastIdx bs = none ↔ ∀ b ∈ bs, b = false := by
  induction bs with
  | nil => simp [bLastIdx]
  | cons b rest ih =>
    rw [bLastIdx]
    cases hr : bLastIdx rest with
    | some k =>
      simp only [List.mem_cons]
      constructor
      · intro hc; exact Option.noConfusion hc
      · intro hall
        have hrest : ∀ x ∈ rest, x = false := fun x hx => hall x (Or.inr hx)
        have := ih.mpr hrest
        rw [hr] at this
        exact Option.noConfusion this
    | none =>
      by_cases hb : b = true
      · subst hb
        simp
      · have hbf : b = false := by
          cases b
          · rfl
          · exact absurd rfl hb
        subst hbf
        simp only [if_neg (Bool.false_ne_true)]
        constructor
        · intro _ x hx
          rcases List.mem_cons.mp hx with h1 | h2
          · exact h1
          · exact ih.mp hr x h2
        · intro _
          trivial

theorem bLastIdx_eq_of_unique {bs : List Bool} {k : Nat} (hk : k < bs.length)
    (ht : bs.getD k false = true)
    (huniq : ∀ j, j < bs.length → bs.getD j false = true → j = k) :
    bLastIdx bs = some k := by
  cases h : bLastIdx bs with
  | none =>
    have := bLastIdx_none_iff.mp h (bs.getD k false) (getD_mem false hk)
    rw [ht] at this
    exact Bool.noConfusion this
  | some i =>
    have hs := bLastIdx_spec h
    rw [huniq i hs.1 hs.2]

theorem getD_map_decide_node (q : Node → Prop) [DecidablePred q] (ns : List Node) (j : Nat)
    (hj : j < ns.length) :
    (ns.map (fun n => decide (q n))).getD j false = decide (q (ns.getD j dfltNode)) := by
  rw [List.getD_eq_getElem _ _ (by simpa using hj), List.getElem_map,
    ← List.getD_eq_getElem ns dfltNode hj]

theorem getD_map_decide_link (q : Link → Prop) [DecidablePred q] (ls : List Link) (j : Nat)
    (hj : j < ls.length) :
    (ls.map (fun l => decide (q l))).getD j false = decide (q (ls.getD j dfltLink)) := by
  rw [List.getD_eq_getElem _ _ (by simpa using hj), List.getElem_map,
    ← List.getD_eq_getElem ls dfltLink hj]

theorem lastIdxNode_eq_self {ns : List Node} {k : Nat} {v : Int}
    (hN : (ns.map Node.id).Nodup) (hk : k < ns.length)
    (hid : (ns.getD k dfltNode).id = some v) : lastIdxNode ns v = some k := by
  apply bLastIdx_eq_of_unique
  · simpa using hk
  · rw [getD_map_decide_node (fun n => n.id = some v) ns k hk]
    exact decide_eq_true hid
  · intro j hj ht
    rw [List.length_map] at hj
    rw [getD_map_decide_node (fun n => n.id = some v) ns j hj] at ht
    have hjid : (ns.getD j dfltNode).id = some v := of_decide_eq_true ht
    by_contra hne
    have hget : (ns.map Node.id).get ⟨j, by simpa using hj⟩ =
        (ns.map Node.id).get ⟨k, by simpa using hk⟩ := by
      rw [List.get_eq_getElem, List.get_eq_getElem, List.getElem_map, List.getElem_map,
        ← List.getD_eq_getElem ns dfltNode hj, ← List.getD_eq_getElem ns dfltNode hk,
        hjid, hid]
    have := hN.get_inj_iff.mp hget
    exact hne (congrArg Fin.val this)

theorem lastIdxLink_eq_self {ls : List Link} {p : Nat} {lid : Int}
    (hL : (ls.map Link.id).Nodup) (hp : p < ls.length)
    (hid : (ls.getD p dfltLink).id = lid) : lastIdxLink ls lid = some p := by
  apply bLastIdx_eq_of_unique
  · simpa using hp
  · rw [getD_map_decide_link (fun l => l.id = lid) ls p hp]
    exact decide_eq_true hid
  · intro j hj ht
    rw [List.length_map] at hj
    rw [getD_map_decide_link (fun l => l.id = lid) ls j hj] at ht
    have hjid : (ls.getD j dfltLink).id = lid := of_decide_eq_true ht
    by_contra hne
    have hget : (ls.map Link.id).get ⟨j, by simpa using hj⟩ =
        (ls.map Link.id).get ⟨p, by simpa using hp⟩ := by
      rw [List.get_eq_getElem, List.get_eq_getElem, List.getElem_map, List.getElem_map,
        ← List.getD_eq_getElem ls dfltLink hj, ← List.getD_eq_getElem ls dfltLink hp,
        hjid, hid]
    have := hL.get_inj_iff.mp hget
    exact hne (congrArg Fin.val this)

theorem lookup_mem_pair {β : Type} {k : String} {b : β} :
    ∀ {l : List (String × β)}, List.lookup k l = some b → (k, b) ∈ l := by
  intro l
  induction l with
  | nil => intro h; exact Option.noConfusion h
  | cons e rest ih =>
    intro h
    rw [List.lookup_cons] at h
    cases hbe : k == e.1 with
    | true =>
      rw [hbe] at h
      cases h
      have hke : k = e.1 := eq_of_beq hbe
      rw [hke]
      exact List.mem_cons_self _ _
    | false =>
      rw [hbe] at h
      exact List.mem_cons_of_mem _ (ih h)

theorem take_append_getD {α : Type} {xs : List α} {s : Nat} (d : α) (h : s < xs.length) :
    xs.take (s + 1) = xs.take s ++ [xs.getD s d] := by
  rw [List.getD_eq_getElem _ _ h]
  rw [List.take_succ, List.getElem?_eq_getElem h]
  rfl

theorem range_foldl_succ {σ : Type} (f : σ → Nat → σ) (s : σ) (n : Nat) :
    (List.range (n + 1)).foldl f s = f ((List.range n).foldl f s) n := by
  rw [List.range_succ, List.foldl_append, List.foldl_cons, List.foldl_nil]

theorem flatMap_nodup_parts {α β : Type} {f : α → List β} {xs : List α}
    (h : (xs.flatMap f).Nodup) : ∀ x ∈ xs, (f x).Nodup := by
  induction xs with
  | nil => intro x hx; exact absurd hx (List.not_mem_nil x)
  | cons y ys ih =>
    rw [List.flatMap_cons] at h
    intro x hx
    rcases List.mem_cons.mp hx with h1 | h2
    · subst h1
      exact (List.nodup_append.mp h).1
    · exact ih (List.nodup_append.mp h).2.1 x h2

theorem flatMap_nodup_unique_idx {α β : Type} [DecidableEq β] {f : α → List β}
    {xs : List α} (h : (xs.flatMap f).Nodup) (d : α) :
    ∀ {i j : Nat}, i < xs.length → j < xs.length → ∀ {b : β},
      b ∈ f (xs.getD i d) → b ∈ f (xs.getD j d) → i = j := by
  induction xs with
  | nil => intro i j hi _ _ _ _; exact absurd hi (by simp)
  | cons y ys ih =>
    intro i j hi hj b hbi hbj
    rw [List.flatMap_cons] at h
    have hdisj := List.disjoint_of_nodup_append h
    cases i with
    | zero =>
      cases j with
      | zero => rfl
      | succ m =>
        exfalso
        apply hdisj hbi
        apply List.mem_flatMap.mpr
        exact ⟨ys.getD m d, getD_mem d (by simpa using hj), hbj⟩
    | succ m =>
      cases j with
      | zero =>
        exfalso
        apply hdisj hbj
        apply List.mem_flatMap.mpr
        exact ⟨ys.getD m d, getD_mem d (by simpa using hi), hbi⟩
      | succ m' =>
        have := ih (List.nodup_append.mp h).2.1 (by simpa using hi) (by simpa using hj)
          hbi hbj
        rw [this]

theorem linkMapFind_isSome (ls : List Link) (lid : Int) :
    (linkMapFind ls lid).isSome = (lastIdxLink ls lid).isSome := by
  unfold linkMapFind
  cases lastIdxLink ls lid with
  | none => rfl
  | some i => rfl

theorem lastIdxNode_state {st : RunSt} {ns₀ : List Node}
    (h : st.nodes.map nodeSig = ns₀.map nodeSig) (v : Int) :
    lastIdxNode st.nodes v = lastIdxNode ns₀ v :=
  lastIdxNode_congr (map_id_of_map_nodeSig h) v

theorem lastIdxLink_state {st : RunSt} {ls₀ : List Link}
    (h : st.links.map linkSig = ls₀.map linkSig) (lid : Int) :
    lastIdxLink st.links lid = lastIdxLink ls₀ lid :=
  lastIdxLink_congr (map_id_of_map_linkSig h) lid

theorem setPortLinks_portOf_ne (ns : List Node) (i s : Nat) (nl : List Int) (j : Nat)
    (hj : j ≠ i) :
    portOf ((setPortLinks ns i s nl).getD j dfltNode) q = portOf (ns.getD j dfltNode) q := by
  rw [setPortLinks_getD_ne _ _ _ _ _ _ hj]

theorem setPortLinks_portOf_self_ne (ns : List Node) (i s : Nat) (nl : List Int)
    (hi : i < ns.length) (s' : Nat) (hs' : s' ≠ s) :
    portOf ((setPortLinks ns i s nl).getD i dfltNode) s' =
      portOf (ns.getD i dfltNode) s' := by
  unfold setPortLinks
  rw [getD_set_self _ _ _ _ hi]
  unfold portOf
  dsimp only
  rw [Option.getD_some, getD_set_ne _ _ _ _ _ hs']

theorem setPortLinks_portOf_self (ns : List Node) (i s : Nat) (nl : List Int)
    (hi : i < ns.length) (hs : s < ((ns.getD i dfltNode).outputs.getD []).length) :
    portOf ((setPortLinks ns i s nl).getD i dfltNode) s =
      { ((ns.getD i dfltNode).outputs.getD []).getD s dfltPort with links := some nl } := by
  unfold setPortLinks
  rw [getD_set_self _ _ _ _ hi]
  unfold portOf
  dsimp only
  rw [Option.getD_some, getD_set_self _ _ _ _ hs]

theorem add_output_link_getD_ne (st : RunSt) (nid slot lid : Int) (j : Nat)
    (hj : ∀ t, lastIdxNode st.nodes nid = some t → j ≠ t) :
    (add_output_link st nid slot lid).nodes.getD j dfltNode = st.nodes.getD j dfltNode := by
  unfold add_output_link
  cases h : lastIdxNode st.nodes nid with
  | none => rfl
  | some t =>
    dsimp only
    split
    · exact setPortLinks_getD_ne _ _ _ _ _ _ (hj t h)
    · rfl

/-- The effect of `remove_output_link` when the target resolves, the slot
is in range and the link id is attached: the port's list loses it. -/
theorem remove_output_link_effect (st : RunSt) (v : Int) (s : Nat) (lid : Int) (k : Nat)
    (hidx : lastIdxNode st.nodes v = some k)
    (hk : k < st.nodes.length)
    (hs : s < ((st.nodes.getD k dfltNode).outputs.getD []).length)
    (l : List Int)
    (hport : (portOf (st.nodes.getD k dfltNode) s).links = some l)
    (hmem : lid ∈ l) :
    (remove_output_link st (some v) (Int.ofNat s) lid).nodes =
      setPortLinks st.nodes k s (l.erase lid) := by
  unfold remove_output_link
  dsimp only
  rw [hidx]
  dsimp only
  rw [if_pos ⟨show (0 : Int) ≤ (s : Int) by exact_mod_cast Nat.zero_le s,
    show (s : Int) < (((st.nodes.getD k dfltNode).outputs.getD []).length : Int) by
      exact_mod_cast hs⟩]
  rw [show ((Int.ofNat s).toNat) = s from rfl]
  rw [show ((st.nodes.getD k dfltNode).outputs.getD []).getD s dfltPort =
    portOf (st.nodes.getD k dfltNode) s from rfl]
  rw [hport]
  dsimp only
  rw [if_pos hmem]

theorem outsLen_eq_of_parts {n m : Node}
    (h : n.outputs.map List.length = m.outputs.map List.length) :
    ((n.outputs.getD []).length) = ((m.outputs.getD []).length) := by
  cases hn : n.outputs with
  | none =>
    cases hm : m.outputs with
    | none => rfl
    | some os => rw [hn, hm] at h; exact Option.noConfusion h
  | some os =>
    cases hm : m.outputs with
    | none => rw [hn, hm] at h; exact Option.noConfusion h
    | some os2 =>
      rw [hn, hm] at h
      simpa using h

theorem processLid_not_found (nm : String) (tr : Src) (gid : Option Int) (s : Nat)
    (st : RunSt) (lid : Int) (h : lastIdxLink st.links lid = none) :
    processLid nm tr gid s st lid = st := by
  unfold processLid
  rw [h]

/-- One slot of a resolvable ReadNode: folding `processLid` over a batch of
distinct link ids attached to port `s` of node `k` rewrites exactly the ids
whose links exist, removes them from that port, appends matching trace
entries, and touches no other ReadNode and no other port of node `k`. -/
theorem lidFold_spec (map : List (String × Src)) (ns₀ : List Node) (ls₀ : List Link)
    (hN : (ns₀.map Node.id).Nodup) (hL : (ls₀.map Link.id).Nodup)
    (hG : NoGetSource map ns₀)
    (k : Nat) (hk : k < ns₀.length)
    (hty : (ns₀.getD k dfltNode).type = some "GetNode")
    (nm : String) (tr : Src) (htr : (nm, tr) ∈ map)
    (gid : Option Int) (v : Int) (hv : gid = some v)
    (hvk : (ns₀.getD k dfltNode).id = some v)
    (s : Nat) (hs : s < ((ns₀.getD k dfltNode).outputs.getD []).length) :
    ∀ (todo : List Int) (st : RunSt),
      st.nodes.map nodeSig = ns₀.map nodeSig →
      st.links.map linkSig = ls₀.map linkSig →
      todo.Nodup →
      (∀ p, p < ls₀.length → (ls₀.getD p dfltLink).id ∈ todo →
        st.links.getD p dfltLink = ls₀.getD p dfltLink) →
      (∀ x ∈ todo, x ∈ ((portOf (st.nodes.getD k dfltNode) s).links.getD [])) →
      ((portOf (st.nodes.getD k dfltNode) s).links.getD []).Nodup →
      ((todo.foldl (processLid nm tr gid s) st).nodes.map nodeSig = ns₀.map nodeSig ∧
       (todo.foldl (processLid nm tr gid s) st).links.map linkSig = ls₀.map linkSig) ∧
      (∀ j, (ns₀.getD j dfltNode).type = some "GetNode" → j ≠ k →
        (todo.foldl (processLid nm tr gid s) st).nodes.getD j dfltNode =
          st.nodes.getD j dfltNode) ∧
      (∀ s', s' ≠ s →
        portOf ((todo.foldl (processLid nm tr gid s) st).nodes.getD k dfltNode) s' =
          portOf (st.nodes.getD k dfltNode) s') ∧
      ((portOf ((todo.foldl (processLid nm tr gid s) st).nodes.getD k dfltNode) s).links.getD []
        = ((portOf (st.nodes.getD k dfltNode) s).links.getD []).filter
            (fun x => ¬ x ∈ foundLids ls₀ todo)) ∧
      (∀ p, p < ls₀.length →
        (todo.foldl (processLid nm tr gid s) st).links.getD p dfltLink =
          (if (ls₀.getD p dfltLink).id ∈ todo then rewriteLink tr (ls₀.getD p dfltLink)
           else st.links.getD p dfltLink)) ∧
      (todo.foldl (processLid nm tr gid s) st).rewired =
        st.rewired ++ (foundLids ls₀ todo).map (fun lid => (nm, lid, gid, tr.1)) ∧
      (todo.foldl (processLid nm tr gid s) st).skipped = st.skipped := by
  intro todo
  induction todo with
  | nil =>
    intro st h1 h2 _ _ _ _
    refine ⟨⟨h1, h2⟩, fun j _ _ => rfl, fun s' _ => rfl, ?_, fun p _ => by
      rw [if_neg (List.not_mem_nil _)]; rfl, by simp [foundLids], rfl⟩
    rw [List.foldl_nil]
    have : ∀ x ∈ ((portOf (st.nodes.getD k dfltNode) s).links.getD []),
        decide (¬ x ∈ foundLids ls₀ []) = true := by
      intro x _
      simp [foundLids]
    rw [List.filter_eq_self.mpr this]
  | cons lid todo ih =>
    intro st h1 h2 hnodup h3 hcur hcnodup
    rw [List.foldl_cons]
    have hfound_eq : lastIdxLink st.links lid = lastIdxLink ls₀ lid := lastIdxLink_state h2 lid
    cases hfnd : lastIdxLink ls₀ lid with
    | none =>
      -- the link id maps to no link: the step is a no-op
      have hstep : processLid nm tr gid s st lid = st :=
        processLid_not_found _ _ _ _ _ _ (hfound_eq.trans hfnd)
      rw [hstep]
      have hnotfound : ∀ p, p < ls₀.length → (ls₀.getD p dfltLink).id ≠ lid := by
        intro p hp hc
        have := lastIdxLink_eq_self hL hp hc
        rw [this] at hfnd
        exact Option.noConfusion hfnd
      have hfl : foundLids ls₀ (lid :: todo) = foundLids ls₀ todo := by
        unfold foundLids
        rw [List.filter_cons]
        rw [if_neg (by simp [linkMapFind_isSome, hfnd])]
      obtain ⟨hsig, hother, hports, hportS, hlinks, htrace, hskip⟩ :=
        ih st h1 h2 (List.Nodup.of_cons hnodup)
          (fun p hp hm => h3 p hp (List.mem_cons_of_mem _ hm))
          (fun x hx => hcur x (List.mem_cons_of_mem _ hx)) hcnodup
      refine ⟨hsig, hother, hports, ?_, ?_, ?_, hskip⟩
      · rw [hportS, hfl]
      · intro p hp
        rw [hlinks p hp]
        by_cases hmem : (ls₀.getD p dfltLink).id ∈ todo
        · rw [if_pos hmem, if_pos (List.mem_cons_of_mem _ hmem)]
        · rw [if_neg hmem, if_neg (by
            intro hc
            rcases List.mem_cons.mp hc with h | h
            · exact hnotfound p hp h
            · exact hmem h)]
      · rw [htrace, hfl]
    | some li =>
      -- the link exists: it is rewritten, registered, deregistered, traced
      have hspec := lastIdx?_spec dfltLink (hfnd : lastIdx? ls₀ (fun l => l.id = lid) = some li)
      have hli : li < ls₀.length := hspec.1
      have hliid : (ls₀.getD li dfltLink).id = lid := of_decide_eq_true hspec.2
      have hcurli : st.links.getD li dfltLink = ls₀.getD li dfltLink :=
        h3 li hli (by rw [hliid]; exact List.mem_cons_self _ _)
      -- the state after the head link id is processed
      have hporthead := hcur lid (List.mem_cons_self _ _)
      obtain ⟨l, hportl⟩ : ∃ l, (portOf (st.nodes.getD k dfltNode) s).links = some l := by
        cases hq : (portOf (st.nodes.getD k dfltNode) s).links with
        | none => rw [hq] at hporthead; exact absurd hporthead (List.not_mem_nil _)
        | some l => exact ⟨l, rfl⟩
      have hmeml : lid ∈ l := by rw [hportl] at hporthead; exact hporthead
      have hlnodup : l.Nodup := by rw [hportl] at hcnodup; exact hcnodup
      set st1 : RunSt :=
        { st with links := st.links.set li (rewriteLink tr (st.links.getD li dfltLink)) } with hst1
      set st2 := add_output_link st1 tr.1 tr.2.1 lid with hst2
      set st3 := remove_output_link st2 gid (Int.ofNat s) lid with hst3
      have hstep : processLid nm tr gid s st lid =
          { st3 with rewired := st3.rewired ++ [(nm, lid, gid, tr.1)] } := by
        unfold processLid
        rw [hfound_eq, hfnd]
      -- node facts through the three mutations
      have h1sig : st1.nodes.map nodeSig = ns₀.map nodeSig := h1
      have h1lsig : st1.links.map linkSig = ls₀.map linkSig := by
        rw [hst1]
        dsimp only
        rw [List.map_set, hcurli,
          show linkSig (rewriteLink tr (ls₀.getD li dfltLink)) =
            linkSig (ls₀.getD li dfltLink) from rfl,
          show linkSig (ls₀.getD li dfltLink) = (ls₀.map linkSig).getD li (linkSig dfltLink)
            from (getD_map_fn linkSig ls₀ li dfltLink).symm, ← h2]
        rw [show (st.links.map linkSig).getD li (linkSig dfltLink) =
          linkSig (st.links.getD li dfltLink) from getD_map_fn linkSig st.links li dfltLink]
        rw [hcurli, h2,
          show linkSig (ls₀.getD li dfltLink) = (ls₀.map linkSig).getD li (linkSig dfltLink)
            from (getD_map_fn linkSig ls₀ li dfltLink).symm, ← h2]
        exact set_getD_self _ _ _
      have haddne : ∀ j, (ns₀.getD j dfltNode).type = some "GetNode" →
          st2.nodes.getD j dfltNode = st.nodes.getD j dfltNode := by
        intro j hjty
        rw [hst2]
        apply add_output_link_getD_ne
        intro t ht
        rw [show st1.nodes = st.nodes from rfl] at ht
        rw [lastIdxNode_state h1 tr.1] at ht
        have hspec2 := lastIdx?_spec dfltNode ht
        have htid : (ns₀.getD t dfltNode).id = some tr.1 := of_decide_eq_true hspec2.2
        intro hjt
        subst hjt
        exact hG (nm, tr) htr _ (getD_mem dfltNode hspec2.1) htid hjty
      have h2sig : st2.nodes.map nodeSig = ns₀.map nodeSig := by
        rw [hst2, add_output_link_sig]
        exact h1sig
      have h2k : st2.nodes.getD k dfltNode = st.nodes.getD k dfltNode := haddne k hty
      have h2len : k < st2.nodes.length := by
        rw [map_sig_length h2sig]
        exact hk
      have h2s : s < ((st2.nodes.getD k dfltNode).outputs.getD []).length := by
        rw [outsLen_eq_of_parts (nodeSig_parts (nodeSig_getD h2sig k)).2.2.2.2]
        exact hs
      have hrm : st3.nodes = setPortLinks st2.nodes k s (l.erase lid) := by
        rw [hst3, hv]
        apply remove_output_link_effect st2 v s lid k _ h2len h2s l _ hmeml
        · rw [lastIdxNode_state h2sig v]
          exact lastIdxNode_eq_self hN hk hvk
        · rw [h2k]
          exact hportl
      -- invariant hypotheses for the tail
      have h3sig : st3.nodes.map nodeSig = ns₀.map nodeSig := by
        rw [hrm, setPortLinks_sig]
        · exact h2sig
        · cases ho : (st2.nodes.getD k dfltNode).outputs with
          | none =>
            rw [ho] at h2s
            simp at h2s
          | some os => rfl
      have h3lsig : st3.links.map linkSig = ls₀.map linkSig := by
        rw [hst3]
        rw [(remove_output_link_frame _ _ _ _).1, hst2, (add_output_link_frame _ _ _ _).1]
        exact h1lsig
      have hfinal_sig : ({ st3 with rewired := st3.rewired ++ [(nm, lid, gid, tr.1)] }
          : RunSt).nodes.map nodeSig = ns₀.map nodeSig := h3sig
      -- apply the induction hypothesis at the state after the head
      obtain ⟨hsig, hother, hports, hportS, hlinks, htrace, hskip⟩ :=
        ih { st3 with rewired := st3.rewired ++ [(nm, lid, gid, tr.1)] }
          hfinal_sig h3lsig (List.Nodup.of_cons hnodup)
          (by
            intro p hp hm
            show st3.links.getD p dfltLink = ls₀.getD p dfltLink
            rw [hst3, (remove_output_link_frame _ _ _ _).1, hst2,
              (add_output_link_frame _ _ _ _).1, hst1]
            dsimp only
            have hpli : p ≠ li := by
              intro hc
              subst hc
              rw [hliid] at hm
              exact (List.nodup_cons.mp hnodup).1 hm
            rw [getD_set_ne _ _ _ _ _ hpli]
            exact h3 p hp (List.mem_cons_of_mem _ hm))
          (by
            intro x hx
            show x ∈ (portOf (st3.nodes.getD k dfltNode) s).links.getD []
            rw [hrm, setPortLinks_portOf_self _ _ _ _ (by
                rw [map_sig_length h2sig]; exact hk) h2s]
            dsimp only
            rw [Option.getD_some]
            have hxl : x ∈ l := by
              have := hcur x (List.mem_cons_of_mem _ hx)
              rw [hportl] at this
              exact this
            have hxne : x ≠ lid := by
              intro hc
              subst hc
              exact (List.nodup_cons.mp hnodup).1 hx
            exact (List.mem_erase_of_ne hxne).mpr hxl)
          (by
            show ((portOf (st3.nodes.getD k dfltNode) s).links.getD []).Nodup
            rw [hrm, setPortLinks_portOf_self _ _ _ _ (by
                rw [map_sig_length h2sig]; exact hk) h2s]
            dsimp only
            rw [Option.getD_some]
            exact hlnodup.erase lid)
      have hfl : foundLids ls₀ (lid :: todo) = lid :: foundLids ls₀ todo := by
        unfold foundLids
        rw [List.filter_cons, if_pos (by simp [linkMapFind_isSome, hfnd])]
      rw [hstep]
      refine ⟨hsig, ?_, ?_, ?_, ?_, ?_, ?_⟩
      · -- other Get nodes unchanged
        intro j hjty hjk
        rw [hother j hjty hjk]
        show st3.nodes.getD j dfltNode = st.nodes.getD j dfltNode
        rw [hrm, setPortLinks_getD_ne _ _ _ _ _ _ hjk]
        exact haddne j hjty
      · -- other ports of node k unchanged
        intro s' hs'
        rw [hports s' hs']
        show portOf (st3.nodes.getD k dfltNode) s' = portOf (st.nodes.getD k dfltNode) s'
        rw [hrm, setPortLinks_portOf_self_ne _ _ _ _ (by
            rw [map_sig_length h2sig]; exact hk) s' hs', h2k]
      · -- port s of node k: erased ids accumulate into a filter
        rw [hportS]
        show (((portOf (st3.nodes.getD k dfltNode) s).links.getD []).filter
            (fun x => ¬ x ∈ foundLids ls₀ todo)) = _
        rw [hrm, setPortLinks_portOf_self _ _ _ _ (by
            rw [map_sig_length h2sig]; exact hk) h2s]
        dsimp only
        rw [Option.getD_some, hportl, Option.getD_some]
        rw [List.Nodup.erase_eq_filter hlnodup lid, List.filter_filter, hfl]
        apply List.filter_congr
        intro x _
        by_cases hx1 : x = lid
        · subst hx1
          simp
        · by_cases hx2 : x ∈ foundLids ls₀ todo
          · simp [hx1, hx2]
          · simp [hx1, hx2]
      · -- link records
        intro p hp
        rw [hlinks p hp]
        by_cases hmem : (ls₀.getD p dfltLink).id ∈ todo
        · rw [if_pos hmem, if_pos (List.mem_cons_of_mem _ hmem)]
        · rw [if_neg hmem]
          show st3.links.getD p dfltLink = _
          rw [hst3, (remove_output_link_frame _ _ _ _).1, hst2,
            (add_output_link_frame _ _ _ _).1, hst1]
          dsimp only
          by_cases hpl : p = li
          · subst hpl
            rw [if_pos (by rw [hliid]; exact List.mem_cons_self _ _)]
            rw [getD_set_self _ _ _ _ (by rw [map_linkSig_length h2]; exact hli), hcurli]
          · rw [if_neg (by
              intro hc
              rcases List.mem_cons.mp hc with h | h
              · apply hpl
                have hp2 := lastIdxLink_eq_self hL hp h
                rw [hfnd] at hp2
                exact (Option.some.inj hp2).symm
              · exact hmem h)]
            rw [getD_set_ne _ _ _ _ _ hpl]
      · -- the trace
        rw [htrace]
        show (st3.rewired ++ [(nm, lid, gid, tr.1)]) ++ _ = _
        rw [hst3, (remove_output_link_frame _ _ _ _).2.1, hst2,
          (add_output_link_frame _ _ _ _).2.1, hst1]
        dsimp only
        rw [hfl, List.map_cons, List.append_assoc]
        rfl
      · -- skipped
        rw [hskip]
        show st3.skipped = st.skipped
        rw [hst3, (remove_output_link_frame _ _ _ _).2.2, hst2,
          (add_output_link_frame _ _ _ _).2.2, hst1]

theorem takeLids_succ (n : Node) (s : Nat) (hs : s < (n.outputs.getD []).length) :
    takeLids n (s + 1) = takeLids n s ++ portLids n s := by
  unfold takeLids
  rw [take_append_getD dfltPort hs, List.flatMap_append, List.flatMap_cons, List.flatMap_nil,
    List.append_nil]
  rfl

theorem nodeLids_split (n : Node) (s : Nat) :
    nodeLids n = takeLids n s ++
      ((n.outputs.getD []).drop s).flatMap (fun p => p.links.getD []) := by
  unfold nodeLids takeLids
  rw [← List.flatMap_append, List.take_append_drop]

theorem nodeLids_split_at (n : Node) (s : Nat) (hs : s < (n.outputs.getD []).length) :
    nodeLids n = takeLids n s ++ (portLids n s ++
      ((n.outputs.getD []).drop (s + 1)).flatMap (fun p => p.links.getD [])) := by
  rw [nodeLids_split n s, List.drop_eq_getElem_cons hs, List.flatMap_cons]
  rw [← List.getD_eq_getElem _ dfltPort hs]
  rfl

theorem processSlot_eq (nm : String) (tr : Src) (gid : Option Int) (i : Nat) (st : RunSt)
    (s : Nat) :
    processSlot nm tr gid i st s =
      ((portOf (st.nodes.getD i dfltNode) s).links.getD []).foldl (processLid nm tr gid s) st :=
  rfl

/-- All slots of a resolvable ReadNode, processed in order. -/
theorem slotFold_spec (map : List (String × Src)) (ns₀ : List Node) (ls₀ : List Link)
    (hN : (ns₀.map Node.id).Nodup) (hL : (ls₀.map Link.id).Nodup)
    (hU : (allPortLids ns₀).Nodup) (hG : NoGetSource map ns₀)
    (k : Nat) (hk : k < ns₀.length)
    (hty : (ns₀.getD k dfltNode).type = some "GetNode")
    (nm : String) (tr : Src) (htr : (nm, tr) ∈ map)
    (gid : Option Int) (v : Int) (hv : gid = some v)
    (hvk : (ns₀.getD k dfltNode).id = some v)
    (st : RunSt)
    (hsig : st.nodes.map nodeSig = ns₀.map nodeSig)
    (hlsig : st.links.map linkSig = ls₀.map linkSig)
    (hkorig : st.nodes.getD k dfltNode = ns₀.getD k dfltNode)
    (hfresh : ∀ p, p < ls₀.length →
      (ls₀.getD p dfltLink).id ∈ nodeLids (ns₀.getD k dfltNode) →
      st.links.getD p dfltLink = ls₀.getD p dfltLink) :
    ∀ S, S ≤ ((ns₀.getD k dfltNode).outputs.getD []).length →
      (((List.range S).foldl (processSlot nm tr gid k) st).nodes.map nodeSig =
          ns₀.map nodeSig ∧
        ((List.range S).foldl (processSlot nm tr gid k) st).links.map linkSig =
          ls₀.map linkSig) ∧
      (∀ j, (ns₀.getD j dfltNode).type = some "GetNode" → j ≠ k →
        ((List.range S).foldl (processSlot nm tr gid k) st).nodes.getD j dfltNode =
          st.nodes.getD j dfltNode) ∧
      (∀ s', S ≤ s' →
        portOf (((List.range S).foldl (processSlot nm tr gid k) st).nodes.getD k dfltNode) s' =
          portOf (ns₀.getD k dfltNode) s') ∧
      (∀ s', s' < S →
        (portOf (((List.range S).foldl (processSlot nm tr gid k) st).nodes.getD k dfltNode)
            s').links.getD [] =
          (portLids (ns₀.getD k dfltNode) s').filter
            (fun x => ¬ x ∈ foundLids ls₀ (portLids (ns₀.getD k dfltNode) s'))) ∧
      (∀ p, p < ls₀.length →
        ((List.range S).foldl (processSlot nm tr gid k) st).links.getD p dfltLink =
          (if (ls₀.getD p dfltLink).id ∈ takeLids (ns₀.getD k dfltNode) S then
            rewriteLink tr (ls₀.getD p dfltLink)
           else st.links.getD p dfltLink)) ∧
      ((List.range S).foldl (processSlot nm tr gid k) st).rewired =
        st.rewired ++ (foundLids ls₀ (takeLids (ns₀.getD k dfltNode) S)).map
          (fun lid => (nm, lid, gid, tr.1)) ∧
      ((List.range S).foldl (processSlot nm tr gid k) st).skipped = st.skipped := by
  have hnodeLids : (nodeLids (ns₀.getD k dfltNode)).Nodup :=
    flatMap_nodup_parts hU _ (getD_mem dfltNode hk)
  intro S
  induction S with
  | zero =>
    intro _
    refine ⟨⟨hsig, hlsig⟩, fun j _ _ => rfl, fun s' _ => by
        rw [show ((List.range 0).foldl (processSlot nm tr gid k) st) = st from rfl, hkorig],
      fun s' hs' => absurd hs' (Nat.not_lt_zero s'), fun p hp => ?_, by
        unfold takeLids
        rw [List.take_zero, List.flatMap_nil]
        simp [foundLids], rfl⟩
    rw [if_neg (by unfold takeLids; rw [List.take_zero, List.flatMap_nil]; exact
      List.not_mem_nil _)]
    rfl
  | succ S ihS =>
    intro hS1
    have hSlt : S < ((ns₀.getD k dfltNode).outputs.getD []).length := hS1
    obtain ⟨⟨isig, ilsig⟩, iother, iportsGe, iportsLt, ilinks, itrace, iskip⟩ :=
      ihS (Nat.le_of_lt hSlt)
    rw [range_foldl_succ]
    -- the state after the first S slots
    have hsplit := nodeLids_split_at (ns₀.getD k dfltNode) S hSlt
    have hdisj1 : List.Disjoint (takeLids (ns₀.getD k dfltNode) S)
        (portLids (ns₀.getD k dfltNode) S) := by
      have h1 : (takeLids (ns₀.getD k dfltNode) S ++ (portLids (ns₀.getD k dfltNode) S ++
          ((((ns₀.getD k dfltNode).outputs.getD []).drop (S + 1)).flatMap
            (fun p => p.links.getD [])))).Nodup := by
        rw [← hsplit]; exact hnodeLids
      intro x hx1 hx2
      exact List.disjoint_of_nodup_append h1 hx1 (List.mem_append_left _ hx2)
    have hsnapnodup : (portLids (ns₀.getD k dfltNode) S).Nodup := by
      have h1 : (portLids (ns₀.getD k dfltNode) S ++
          ((((ns₀.getD k dfltNode).outputs.getD []).drop (S + 1)).flatMap
            (fun p => p.links.getD []))).Nodup := by
        have := hnodeLids
        rw [hsplit] at this
        exact (List.nodup_append.mp this).2.1
      exact (List.nodup_append.mp h1).1
    have hmemNode : ∀ x ∈ portLids (ns₀.getD k dfltNode) S,
        x ∈ nodeLids (ns₀.getD k dfltNode) := by
      intro x hx
      rw [hsplit]
      exact List.mem_append_right _ (List.mem_append_left _ hx)
    -- the snapshot of slot S read from the current state is the original port
    have hsnap : processSlot nm tr gid k
        ((List.range S).foldl (processSlot nm tr gid k) st) S =
        (portLids (ns₀.getD k dfltNode) S).foldl (processLid nm tr gid S)
          ((List.range S).foldl (processSlot nm tr gid k) st) := by
      rw [processSlot_eq, iportsGe S (Nat.le_refl S)]
      rfl
    rw [hsnap]
    obtain ⟨lsig, lother, lportsNe, lportS, llinks, ltrace, lskip⟩ :=
      lidFold_spec map ns₀ ls₀ hN hL hG k hk hty nm tr htr gid v hv hvk S hSlt
        (portLids (ns₀.getD k dfltNode) S)
        ((List.range S).foldl (processSlot nm tr gid k) st)
        isig ilsig hsnapnodup
        (by
          intro p hp hm
          rw [ilinks p hp, if_neg (fun hc => hdisj1 hc hm)]
          exact hfresh p hp (hmemNode _ hm))
        (by
          intro x hx
          rw [show portOf (((List.range S).foldl (processSlot nm tr gid k)
              st).nodes.getD k dfltNode) S = portOf (ns₀.getD k dfltNode) S from
            iportsGe S (Nat.le_refl S)]
          exact hx)
        (by
          rw [show portOf (((List.range S).foldl (processSlot nm tr gid k)
              st).nodes.getD k dfltNode) S = portOf (ns₀.getD k dfltNode) S from
            iportsGe S (Nat.le_refl S)]
          exact hsnapnodup)
    refine ⟨lsig, ?_, ?_, ?_, ?_, ?_, ?_⟩
    · intro j hjty hjk
      rw [lother j hjty hjk, iother j hjty hjk]
    · intro s' hs'
      rw [lportsNe s' (by omega), iportsGe s' (by omega)]
    · intro s' hs'
      by_cases hcase : s' < S
      · rw [show portOf ((((portLids (ns₀.getD k dfltNode) S).foldl (processLid nm tr gid S)
            ((List.range S).foldl (processSlot nm tr gid k) st))).nodes.getD k dfltNode) s' =
          portOf (((List.range S).foldl (processSlot nm tr gid k) st).nodes.getD k dfltNode) s'
          from lportsNe s' (by omega)]
        exact iportsLt s' hcase
      · have hsS : s' = S := by omega
        rw [hsS]
        rw [show portOf (((List.range S).foldl (processSlot nm tr gid k) st).nodes.getD k
            dfltNode) S = portOf (ns₀.getD k dfltNode) S from iportsGe S (Nat.le_refl S)]
          at lportS
        exact lportS
    · intro p hp
      rw [llinks p hp]
      rw [takeLids_succ _ _ hSlt]
      by_cases hmem : (ls₀.getD p dfltLink).id ∈ portLids (ns₀.getD k dfltNode) S
      · rw [if_pos hmem, if_pos (List.mem_append_right _ hmem)]
      · rw [if_neg hmem, ilinks p hp]
        by_cases hmem2 : (ls₀.getD p dfltLink).id ∈ takeLids (ns₀.getD k dfltNode) S
        · rw [if_pos hmem2, if_pos (List.mem_append_left _ hmem2)]
        · rw [if_neg hmem2, if_neg (by
            intro hc
            rcases List.mem_append.mp hc with h | h
            · exact hmem2 h
            · exact hmem h)]
    · rw [ltrace, itrace, takeLids_succ _ _ hSlt]
      unfold foundLids
      rw [List.filter_append, List.map_append, List.append_assoc]
    · rw [lskip, iskip]

theorem find?_append_none {α : Type} (p : α → Bool) {l₁ : List α} (l₂ : List α)
    (h : l₁.find? p = none) : (l₁ ++ l₂).find? p = l₂.find? p := by
  induction l₁ with
  | nil => rfl
  | cons a l ih =>
    rw [List.cons_append]
    by_cases hpa : p a = true
    · rw [List.find?_cons_of_pos _ hpa] at h
      exact Option.noConfusion h
    · rw [List.find?_cons_of_neg _ hpa] at h
      rw [List.find?_cons_of_neg _ hpa]
      exact ih h

theorem find?_append_some {α : Type} (p : α → Bool) {l₁ : List α} (l₂ : List α) {a : α}
    (h : l₁.find? p = some a) : (l₁ ++ l₂).find? p = some a := by
  induction l₁ with
  | nil => exact Option.noConfusion h
  | cons b l ih =>
    rw [List.cons_append]
    by_cases hpb : p b = true
    · rw [List.find?_cons_of_pos _ hpb] at h
      rw [List.find?_cons_of_pos _ hpb]
      exact h
    · rw [List.find?_cons_of_neg _ hpb] at h
      rw [List.find?_cons_of_neg _ hpb]
      exact ih h

theorem mem_take_getD {α : Type} (d : α) {xs : List α} {k : Nat} {x : α}
    (hx : x ∈ xs.take k) : ∃ i, i < k ∧ i < xs.length ∧ xs.getD i d = x := by
  obtain ⟨i, hi, hgi⟩ := List.mem_iff_getElem.mp hx
  have hlen : (xs.take k).length = min k xs.length := List.length_take k xs
  have hik : i < k := by omega
  have hil : i < xs.length := by omega
  refine ⟨i, hik, hil, ?_⟩
  rw [List.getD_eq_getElem _ _ hil]
  rw [List.getElem_take] at hgi
  exact hgi

/-- Under unique attachment, no node strictly before position `k` owns a
link id that hangs on the node at position `k`. -/
theorem take_no_owner {ns₀ : List Node} (hU : (allPortLids ns₀).Nodup) {k : Nat}
    (hk : k < ns₀.length) {lid : Int} (hmem : lid ∈ nodeLids (ns₀.getD k dfltNode)) :
    (ns₀.take k).find? (fun n => lid ∈ nodeLids n) = none := by
  rw [List.find?_eq_none]
  intro x hx
  obtain ⟨i, hik, hil, hgi⟩ := mem_take_getD dfltNode hx
  intro hpx
  have hmx : lid ∈ nodeLids x := of_decide_eq_true hpx
  rw [← hgi] at hmx
  have : i = k := flatMap_nodup_unique_idx (f := nodeLids) hU dfltNode hil hk hmx hmem
  omega

theorem lidRewriteIn_snoc_none (map : List (String × Src)) (pref : List Node) (n : Node)
    (lid : Int) (h : ¬ lid ∈ nodeLids n) :
    lidRewriteIn map (pref ++ [n]) lid = lidRewriteIn map pref lid := by
  unfold lidRewriteIn
  cases h1 : pref.find? (fun m => lid ∈ nodeLids m) with
  | some m => rw [find?_append_some _ _ h1]
  | none =>
    rw [find?_append_none _ _ h1,
      List.find?_cons_of_neg _ (by simpa using h)]
    rfl

theorem lidRewriteIn_snoc_owner (map : List (String × Src)) (pref : List Node) (n : Node)
    (lid : Int) (hnone : pref.find? (fun m => lid ∈ nodeLids m) = none)
    (hmem : lid ∈ nodeLids n) :
    lidRewriteIn map (pref ++ [n]) lid =
      (if n.type = some "GetNode" then (resolveGet map n).map (fun q => q.2) else none) := by
  unfold lidRewriteIn
  rw [find?_append_none _ _ hnone,
    show List.find? (fun m => decide (lid ∈ nodeLids m)) [n] = some n from
      List.find?_cons_of_pos _ (by simpa using hmem)]

theorem takeLids_full (n : Node) :
    takeLids n ((n.outputs.getD []).length) = nodeLids n := by
  unfold takeLids nodeLids
  rw [List.take_length]

theorem filter_flatMap_comm {α β : Type} (p : β → Bool) (f : α → List β) (l : List α) :
    (l.flatMap f).filter p = l.flatMap (fun a => (f a).filter p) := by
  induction l with
  | nil => rfl
  | cons a l ih => rw [List.flatMap_cons, List.filter_append, ih, List.flatMap_cons]

theorem foundLids_nodeLids (ls : List Link) (n : Node) :
    foundLids ls (nodeLids n) = nodeFoundLids ls n := by
  unfold foundLids nodeLids nodeFoundLids
  rw [filter_flatMap_comm]
  rfl

theorem traceSpec_append (map : List (String × Src)) (ls : List Link)
    (l₁ l₂ : List Node) :
    traceSpec map ls (l₁ ++ l₂) = traceSpec map ls l₁ ++ traceSpec map ls l₂ := by
  unfold traceSpec
  exact List.flatMap_append l₁ l₂ _

theorem skippedSpec_append (map : List (String × Src)) (l₁ l₂ : List Node) :
    skippedSpec map (l₁ ++ l₂) = skippedSpec map l₁ ++ skippedSpec map l₂ := by
  unfold skippedSpec
  exact List.filterMap_append l₁ l₂ _

theorem processNode_skip (map : List (String × Src)) (st : RunSt) (i : Nat)
    (hty : (st.nodes.getD i dfltNode).type = some "GetNode")
    (hres : resolveGet map (st.nodes.getD i dfltNode) = none) :
    processNode map st i = { st with skipped := st.skipped ++
      [((st.nodes.getD i dfltNode).id, firstWidget (st.nodes.getD i dfltNode))] } := by
  unfold processNode
  dsimp only
  rw [if_pos hty, hres]

theorem processNode_get (map : List (String × Src)) (st : RunSt) (i : Nat)
    (nm : String) (tr : Src)
    (hty : (st.nodes.getD i dfltNode).type = some "GetNode")
    (hres : resolveGet map (st.nodes.getD i dfltNode) = some (nm, tr)) :
    processNode map st i =
      (List.range (((st.nodes.getD i dfltNode).outputs.getD []).length)).foldl
        (processSlot nm tr (st.nodes.getD i dfltNode).id i) st := by
  unfold processNode
  dsimp only
  rw [if_pos hty, hres]

theorem traceSpec_one_not_get (map : List (String × Src)) (ls : List Link) (n : Node)
    (h : ¬ n.type = some "GetNode") : traceSpec map ls [n] = [] := by
  simp [traceSpec, h]

theorem traceSpec_one_skip (map : List (String × Src)) (ls : List Link) (n : Node)
    (h : n.type = some "GetNode") (h2 : resolveGet map n = none) :
    traceSpec map ls [n] = [] := by
  simp [traceSpec, h, h2]

theorem traceSpec_one_get (map : List (String × Src)) (ls : List Link) (n : Node)
    (nm : String) (tr : Src) (h : n.type = some "GetNode")
    (h2 : resolveGet map n = some (nm, tr)) :
    traceSpec map ls [n] = nodeTraceSpec ls n nm tr := by
  simp [traceSpec, h, h2]

theorem skippedSpec_one_not_get (map : List (String × Src)) (n : Node)
    (h : ¬ n.type = some "GetNode") : skippedSpec map [n] = [] := by
  simp [skippedSpec, h]

theorem skippedSpec_one_skip (map : List (String × Src)) (n : Node)
    (h : n.type = some "GetNode") (h2 : resolveGet map n = none) :
    skippedSpec map [n] = [(n.id, firstWidget n)] := by
  simp [skippedSpec, h, h2]

theorem skippedSpec_one_get (map : List (String × Src)) (n : Node) (q : String × Src)
    (h : n.type = some "GetNode") (h2 : resolveGet map n = some q) :
    skippedSpec map [n] = [] := by
  simp [skippedSpec, h, h2]

theorem resolveGet_some {map : List (String × Src)} {n : Node} {nm : String} {tr : Src}
    (h : resolveGet map n = some (nm, tr)) :
    firstWidget n = some nm ∧ List.lookup nm map = some tr := by
  unfold resolveGet at h
  cases hw : firstWidget n with
  | none => rw [hw] at h; exact Option.noConfusion h
  | some nm' =>
    rw [hw] at h
    dsimp only at h
    cases hl : List.lookup nm' map with
    | none => rw [hl] at h; exact Option.noConfusion h
    | some tr' =>
      rw [hl] at h
      dsimp only at h
      have h2 : (nm', tr') = (nm, tr) := Option.some.inj h
      have hnm : nm' = nm := congrArg Prod.fst h2
      have htr2 : tr' = tr := congrArg Prod.snd h2
      subst hnm
      subst htr2
      exact ⟨rfl, hl⟩

/-- The read-port pass characterised over every prefix of the node list:
signatures are preserved, links are rewritten according to the unique owner
of their id, resolvable ReadNodes lose the found ids from their output
ports, unresolvable and unprocessed ReadNodes are untouched, and the trace
and skip lists follow the per-node specification. -/
theorem readPass_inv (map : List (String × Src)) (ns₀ : List Node) (ls₀ : List Link)
    (hN : (ns₀.map Node.id).Nodup) (hNall : ∀ n ∈ ns₀, n.id.isSome)
    (hL : (ls₀.map Link.id).Nodup) (hU : (allPortLids ns₀).Nodup)
    (hG : NoGetSource map ns₀) :
    ∀ k, k ≤ ns₀.length →
      (((List.range k).foldl (processNode map) ⟨ns₀, ls₀, [], []⟩).nodes.map nodeSig =
          ns₀.map nodeSig ∧
        ((List.range k).foldl (processNode map) ⟨ns₀, ls₀, [], []⟩).links.map linkSig =
          ls₀.map linkSig) ∧
      (∀ j, (ns₀.getD j dfltNode).type = some "GetNode" →
        (k ≤ j ∨ resolveGet map (ns₀.getD j dfltNode) = none) →
        ((List.range k).foldl (processNode map) ⟨ns₀, ls₀, [], []⟩).nodes.getD j dfltNode =
          ns₀.getD j dfltNode) ∧
      (∀ j, j < k → (ns₀.getD j dfltNode).type = some "GetNode" →
        (resolveGet map (ns₀.getD j dfltNode)).isSome →
        ∀ s, s < ((ns₀.getD j dfltNode).outputs.getD []).length →
        (portOf (((List.range k).foldl (processNode map) ⟨ns₀, ls₀, [], []⟩).nodes.getD j
            dfltNode) s).links.getD [] =
          (portLids (ns₀.getD j dfltNode) s).filter
            (fun x => ¬ x ∈ foundLids ls₀ (portLids (ns₀.getD j dfltNode) s))) ∧
      (∀ p, p < ls₀.length →
        ((List.range k).foldl (processNode map) ⟨ns₀, ls₀, [], []⟩).links.getD p dfltLink =
          rewrittenLink map (ns₀.take k) (ls₀.getD p dfltLink)) ∧
      ((List.range k).foldl (processNode map) ⟨ns₀, ls₀, [], []⟩).rewired =
        traceSpec map ls₀ (ns₀.take k) ∧
      ((List.range k).foldl (processNode map) ⟨ns₀, ls₀, [], []⟩).skipped =
        skippedSpec map (ns₀.take k) := by
  intro k
  induction k with
  | zero =>
    intro _
    exact ⟨⟨rfl, rfl⟩, fun j _ _ => rfl, fun j hj _ _ => absurd hj (Nat.not_lt_zero j),
      fun p _ => rfl, rfl, rfl⟩
  | succ k ihk =>
    intro hk1
    have hk : k < ns₀.length := hk1
    obtain ⟨⟨isig, ilsig⟩, iB1, iB2, iC, iD, iE⟩ := ihk (Nat.le_of_lt hk)
    rw [range_foldl_succ]
    set res := (List.range k).foldl (processNode map) (⟨ns₀, ls₀, [], []⟩ : RunSt)
    by_cases htyg : (ns₀.getD k dfltNode).type = some "GetNode"
    · cases hrg : resolveGet map (ns₀.getD k dfltNode) with
      | none =>
        have hcurk : res.nodes.getD k dfltNode = ns₀.getD k dfltNode :=
          iB1 k htyg (Or.inl (Nat.le_refl k))
        have hstep : processNode map res k = { res with skipped := res.skipped ++
            [((ns₀.getD k dfltNode).id, firstWidget (ns₀.getD k dfltNode))] } := by
          have h1 := processNode_skip map res k (by rw [hcurk]; exact htyg)
            (by rw [hcurk]; exact hrg)
          rw [hcurk] at h1
          exact h1
        rw [hstep]
        refine ⟨⟨isig, ilsig⟩, ?_, ?_, ?_, ?_, ?_⟩
        · intro j hjty hj
          show res.nodes.getD j dfltNode = ns₀.getD j dfltNode
          apply iB1 j hjty
          rcases hj with hj | hj
          · exact Or.inl (by omega)
          · exact Or.inr hj
        · intro j hjk1 hjty hjres s hs
          by_cases hjk : j = k
          · subst hjk
            rw [hrg] at hjres
            simp at hjres
          · have hjk' : j < k := by omega
            show (portOf (res.nodes.getD j dfltNode) s).links.getD [] = _
            exact iB2 j hjk' hjty hjres s hs
        · intro p hp
          show res.links.getD p dfltLink =
            rewrittenLink map (ns₀.take (k + 1)) (ls₀.getD p dfltLink)
          rw [iC p hp, take_append_getD dfltNode hk]
          by_cases hmem : (ls₀.getD p dfltLink).id ∈ nodeLids (ns₀.getD k dfltNode)
          · unfold rewrittenLink
            rw [lidRewriteIn_snoc_owner _ _ _ _ (take_no_owner hU hk hmem) hmem,
              if_pos htyg, hrg]
            rw [show lidRewriteIn map (ns₀.take k) (ls₀.getD p dfltLink).id = none from by
              unfold lidRewriteIn
              rw [take_no_owner hU hk hmem]]
            rfl
          · unfold rewrittenLink
            rw [lidRewriteIn_snoc_none _ _ _ _ hmem]
        · show res.rewired = traceSpec map ls₀ (ns₀.take (k + 1))
          rw [iD, take_append_getD dfltNode hk, traceSpec_append,
            traceSpec_one_skip map ls₀ _ htyg hrg, List.append_nil]
        · show res.skipped ++ [((ns₀.getD k dfltNode).id, firstWidget (ns₀.getD k dfltNode))] =
            skippedSpec map (ns₀.take (k + 1))
          rw [iE, take_append_getD dfltNode hk, skippedSpec_append,
            skippedSpec_one_skip map _ htyg hrg]
      | some q =>
        obtain ⟨nm, tr⟩ := q
        have hcurk : res.nodes.getD k dfltNode = ns₀.getD k dfltNode :=
          iB1 k htyg (Or.inl (Nat.le_refl k))
        have hstep : processNode map res k =
            (List.range (((ns₀.getD k dfltNode).outputs.getD []).length)).foldl
              (processSlot nm tr (ns₀.getD k dfltNode).id k) res := by
          have h1 := processNode_get map res k nm tr (by rw [hcurk]; exact htyg)
            (by rw [hcurk]; exact hrg)
          rw [hcurk] at h1
          exact h1
        rw [hstep]
        obtain ⟨v, hv⟩ := Option.isSome_iff_exists.mp (hNall _ (getD_mem dfltNode hk))
        have htr : (nm, tr) ∈ map := lookup_mem_pair (resolveGet_some hrg).2
        obtain ⟨⟨ssigN, ssigL⟩, sother, sportsGe, sportsLt, slinks, strace, sskip⟩ :=
          slotFold_spec map ns₀ ls₀ hN hL hU hG k hk htyg nm tr htr
            ((ns₀.getD k dfltNode).id) v hv hv res isig ilsig hcurk
            (by
              intro p hp hmem
              rw [iC p hp]
              unfold rewrittenLink
              rw [show lidRewriteIn map (ns₀.take k) (ls₀.getD p dfltLink).id = none from by
                unfold lidRewriteIn
                rw [take_no_owner hU hk hmem]])
            (((ns₀.getD k dfltNode).outputs.getD []).length) (Nat.le_refl _)
        refine ⟨⟨ssigN, ssigL⟩, ?_, ?_, ?_, ?_, ?_⟩
        · intro j hjty hj
          by_cases hjk : j = k
          · subst hjk
            rcases hj with hj | hj
            · exact absurd hj (by omega)
            · rw [hj] at hrg; exact Option.noConfusion hrg
          · rw [sother j hjty hjk]
            show res.nodes.getD j dfltNode = ns₀.getD j dfltNode
            apply iB1 j hjty
            rcases hj with hj | hj
            · exact Or.inl (by omega)
            · exact Or.inr hj
        · intro j hjk1 hjty hjres s hs
          by_cases hjk : j = k
          · subst hjk
            exact sportsLt s hs
          · have hjk' : j < k := by omega
            rw [sother j hjty hjk]
            show (portOf (res.nodes.getD j dfltNode) s).links.getD [] = _
            exact iB2 j hjk' hjty hjres s hs
        · intro p hp
          rw [slinks p hp, takeLids_full, take_append_getD dfltNode hk]
          by_cases hmem : (ls₀.getD p dfltLink).id ∈ nodeLids (ns₀.getD k dfltNode)
          · rw [if_pos hmem]
            unfold rewrittenLink
            rw [lidRewriteIn_snoc_owner _ _ _ _ (take_no_owner hU hk hmem) hmem,
              if_pos htyg, hrg]
            rfl
          · rw [if_neg hmem]
            show res.links.getD p dfltLink = _
            rw [iC p hp]
            unfold rewrittenLink
            rw [lidRewriteIn_snoc_none _ _ _ _ hmem]
        · rw [strace, takeLids_full, foundLids_nodeLids, take_append_getD dfltNode hk,
            traceSpec_append, traceSpec_one_get map ls₀ _ nm tr htyg hrg]
          show res.rewired ++ _ = traceSpec map ls₀ (ns₀.take k) ++ _
          rw [iD]
          rfl
        · rw [sskip, take_append_getD dfltNode hk, skippedSpec_append,
            skippedSpec_one_get map _ (nm, tr) htyg hrg, List.append_nil]
          exact iE
    · have htype : (res.nodes.getD k dfltNode).type = (ns₀.getD k dfltNode).type :=
        (nodeSig_parts (nodeSig_getD isig k)).2.1
      have hstep : processNode map res k = res :=
        processNode_not_get map res k (by rw [htype]; exact htyg)
      rw [hstep]
      refine ⟨⟨isig, ilsig⟩, ?_, ?_, ?_, ?_, ?_⟩
      · intro j hjty hj
        apply iB1 j hjty
        rcases hj with hj | hj
        · exact Or.inl (by omega)
        · exact Or.inr hj
      · intro j hjk1 hjty hjres s hs
        by_cases hjk : j = k
        · subst hjk
          exact absurd hjty htyg
        · have hjk' : j < k := by omega
          exact iB2 j hjk' hjty hjres s hs
      · intro p hp
        rw [iC p hp, take_append_getD dfltNode hk]
        by_cases hmem : (ls₀.getD p dfltLink).id ∈ nodeLids (ns₀.getD k dfltNode)
        · unfold rewrittenLink
          rw [lidRewriteIn_snoc_owner _ _ _ _ (take_no_owner hU hk hmem) hmem,
            if_neg htyg]
          rw [show lidRewriteIn map (ns₀.take k) (ls₀.getD p dfltLink).id = none from by
            unfold lidRewriteIn
            rw [take_no_owner hU hk hmem]]
        · unfold rewrittenLink
          rw [lidRewriteIn_snoc_none _ _ _ _ hmem]
      · rw [iD, take_append_getD dfltNode hk, traceSpec_append,
          traceSpec_one_not_get map ls₀ _ htyg, List.append_nil]
      · rw [iE, take_append_getD dfltNode hk, skippedSpec_append,
          skippedSpec_one_not_get map _ htyg, List.append_nil]

/-- The read-port pass on the whole node list: instance of `readPass_inv`
at the full prefix. -/
theorem readPass_final (map : List (String × Src)) (ns : List Node) (ls : List Link)
    (hN : (ns.map Node.id).Nodup) (hNall : ∀ n ∈ ns, n.id.isSome)
    (hL : (ls.map Link.id).Nodup) (hU : (allPortLids ns).Nodup)
    (hG : NoGetSource map ns) :
    ((readPass map ⟨ns, ls, [], []⟩).nodes.map nodeSig = ns.map nodeSig ∧
      (readPass map ⟨ns, ls, [], []⟩).links.map linkSig = ls.map linkSig) ∧
    (∀ j, (ns.getD j dfltNode).type = some "GetNode" →
      resolveGet map (ns.getD j dfltNode) = none →
      (readPass map ⟨ns, ls, [], []⟩).nodes.getD j dfltNode = ns.getD j dfltNode) ∧
    (∀ j, j < ns.length → (ns.getD j dfltNode).type = some "GetNode" →
      (resolveGet map (ns.getD j dfltNode)).isSome →
      ∀ s, s < ((ns.getD j dfltNode).outputs.getD []).length →
      (portOf ((readPass map ⟨ns, ls, [], []⟩).nodes.getD j dfltNode) s).links.getD [] =
        (portLids (ns.getD j dfltNode) s).filter
          (fun x => ¬ x ∈ foundLids ls (portLids (ns.getD j dfltNode) s))) ∧
    (∀ p, p < ls.length →
      (readPass map ⟨ns, ls, [], []⟩).links.getD p dfltLink =
        rewrittenLink map ns (ls.getD p dfltLink)) ∧
    (readPass map ⟨ns, ls, [], []⟩).rewired = traceSpec map ls ns ∧
    (readPass map ⟨ns, ls, [], []⟩).skipped = skippedSpec map ns := by
  have h := readPass_inv map ns ls hN hNall hL hU hG ns.length (Nat.le_refl _)
  rw [List.take_length] at h
  rw [show readPass map ⟨ns, ls, [], []⟩ =
    (List.range ns.length).foldl (processNode map) ⟨ns, ls, [], []⟩ from rfl]
  obtain ⟨hsig, hB1, hB2, hC, hD, hE⟩ := h
  exact ⟨hsig, fun j hty hrg => hB1 j hty (Or.inr hrg), hB2, hC, hD, hE⟩

/-- Under unique attachment, the first node owning a link id is the node at
the owning position. -/
theorem find?_owner {ns : List Node} (hU : (allPortLids ns).Nodup) {j : Nat}
    (hj : j < ns.length) {lid : Int} (hmem : lid ∈ nodeLids (ns.getD j dfltNode)) :
    ns.find? (fun n => lid ∈ nodeLids n) = some (ns.getD j dfltNode) := by
  have hsplit : ns = ns.take j ++ (ns.getD j dfltNode :: ns.drop (j + 1)) := by
    rw [List.getD_eq_getElem _ _ hj, ← List.drop_eq_getElem_cons hj, List.take_append_drop]
  conv_lhs => rw [hsplit]
  rw [find?_append_none _ _ (take_no_owner hU hj hmem),
    List.find?_cons_of_pos _ (by simpa using hmem)]

theorem lidRewriteIn_owner (map : List (String × Src)) {ns : List Node}
    (hU : (allPortLids ns).Nodup) {j : Nat} (hj : j < ns.length) {lid : Int}
    (hmem : lid ∈ nodeLids (ns.getD j dfltNode)) :
    lidRewriteIn map ns lid =
      (if (ns.getD j dfltNode).type = some "GetNode" then
        (resolveGet map (ns.getD j dfltNode)).map (fun q => q.2) else none) := by
  unfold lidRewriteIn
  rw [find?_owner hU hj hmem]

/-- The length of the trace is the static pair count. -/
theorem traceSpec_length (map : List (String × Src)) (ls : List Link) (ns : List Node) :
    (traceSpec map ls ns).length = rewiredPairsSpec map ls ns := by
  unfold traceSpec rewiredPairsSpec
  rw [List.length_flatMap]
  congr 1
  apply List.map_congr_left
  intro n _
  dsimp only [Function.comp]
  by_cases hty : n.type = some "GetNode"
  · rw [if_pos hty, if_pos hty]
    cases hrg : resolveGet map n with
    | none => rfl
    | some q =>
      dsimp only
      unfold nodeTraceSpec
      rw [List.length_map]
      unfold nodeFoundLids
      rw [List.length_flatMap]
      rfl
  · rw [if_neg hty, if_neg hty]
    rfl

theorem node_id_unique {ns : List Node} (hN : (ns.map Node.id).Nodup) {i j : Nat}
    (hi : i < ns.length) (hj : j < ns.length)
    (h : (ns.getD i dfltNode).id = (ns.getD j dfltNode).id) : i = j := by
  by_contra hne
  have hget : (ns.map Node.id).get ⟨i, by simpa using hi⟩ =
      (ns.map Node.id).get ⟨j, by simpa using hj⟩ := by
    rw [List.get_eq_getElem, List.get_eq_getElem, List.getElem_map, List.getElem_map,
      ← List.getD_eq_getElem ns dfltNode hi, ← List.getD_eq_getElem ns dfltNode hj, h]
  have := hN.get_inj_iff.mp hget
  exact hne (congrArg Fin.val this)

theorem mem_drop_getD {α : Type} (d : α) {xs : List α} {k : Nat} {x : α}
    (hx : x ∈ xs.drop k) : ∃ i, k ≤ i ∧ i < xs.length ∧ xs.getD i d = x := by
  obtain ⟨i, hi, hgi⟩ := List.mem_iff_getElem.mp hx
  have hlen : (xs.drop k).length = xs.length - k := List.length_drop k xs
  refine ⟨k + i, by omega, by omega, ?_⟩
  rw [List.getD_eq_getElem _ _ (by omega)]
  rw [List.getElem_drop] at hgi
  exact hgi

/-- Every entry of the skip list carries the id of the node it came from. -/
theorem skippedSpec_mem_fst {map : List (String × Src)} {xs : List Node} {q : SkipEntry}
    (h : q ∈ skippedSpec map xs) : ∃ n ∈ xs, q.1 = n.id := by
  unfold skippedSpec at h
  obtain ⟨n, hn, hfn⟩ := List.mem_filterMap.mp h
  refine ⟨n, hn, ?_⟩
  by_cases hty : n.type = some "GetNode"
  · rw [if_pos hty] at hfn
    cases hres : resolveGet map n with
    | none =>
      rw [hres] at hfn
      dsimp only at hfn
      cases hfn
      rfl
    | some _ =>
      rw [hres] at hfn
      exact Option.noConfusion hfn
  · rw [if_neg hty] at hfn
    exact Option.noConfusion hfn

/-- An unresolvable ReadNode contributes its skip entry exactly once. -/
theorem skippedSpec_count_one (map : List (String × Src)) {ns : List Node}
    (hN : (ns.map Node.id).Nodup) {j : Nat} (hj : j < ns.length)
    (hty : (ns.getD j dfltNode).type = some "GetNode")
    (hrg : resolveGet map (ns.getD j dfltNode) = none) :
    (skippedSpec map ns).count
      ((ns.getD j dfltNode).id, firstWidget (ns.getD j dfltNode)) = 1 := by
  have hsplit : ns = ns.take j ++ ([ns.getD j dfltNode] ++ ns.drop (j + 1)) := by
    rw [List.singleton_append, List.getD_eq_getElem _ _ hj,
      ← List.drop_eq_getElem_cons hj, List.take_append_drop]
  rw [show skippedSpec map ns = skippedSpec map (ns.take j) ++
      (skippedSpec map [ns.getD j dfltNode] ++ skippedSpec map (ns.drop (j + 1))) from by
    conv_lhs => rw [hsplit]
    rw [skippedSpec_append, skippedSpec_append]]
  rw [skippedSpec_one_skip map _ hty hrg, List.count_append, List.count_append]
  have hA : (skippedSpec map (ns.take j)).count
      ((ns.getD j dfltNode).id, firstWidget (ns.getD j dfltNode)) = 0 := by
    rw [List.count_eq_zero]
    intro hmem
    obtain ⟨n, hn, hfst⟩ := skippedSpec_mem_fst hmem
    obtain ⟨i, hik, hil, hgi⟩ := mem_take_getD dfltNode hn
    have : i = j := node_id_unique hN hil hj (by rw [hgi]; exact hfst.symm)
    omega
  have hB : (skippedSpec map (ns.drop (j + 1))).count
      ((ns.getD j dfltNode).id, firstWidget (ns.getD j dfltNode)) = 0 := by
    rw [List.count_eq_zero]
    intro hmem
    obtain ⟨n, hn, hfst⟩ := skippedSpec_mem_fst hmem
    obtain ⟨i, hik, hil, hgi⟩ := mem_drop_getD dfltNode hn
    have : i = j := node_id_unique hN hil hj (by rw [hgi]; exact hfst.symm)
    omega
  rw [hA, hB]
  simp

theorem portLids_sub_nodeLids {n : Node} {s : Nat}
    (hs : s < (n.outputs.getD []).length) {lid : Int}
    (hmem : lid ∈ portLids n s) : lid ∈ nodeLids n := by
  unfold nodeLids
  exact List.mem_flatMap.mpr ⟨(n.outputs.getD []).getD s dfltPort, getD_mem dfltPort hs, hmem⟩

/-- A found link id of a resolvable ReadNode contributes its trace entry. -/
theorem traceSpec_mem (map : List (String × Src)) (ls : List Link) {ns : List Node}
    {j : Nat} (hj : j < ns.length)
    (hty : (ns.getD j dfltNode).type = some "GetNode") {nm : String} {tr : Src}
    (hrg : resolveGet map (ns.getD j dfltNode) = some (nm, tr))
    {lid : Int} {s : Nat} (hs : s < ((ns.getD j dfltNode).outputs.getD []).length)
    (hmem : lid ∈ portLids (ns.getD j dfltNode) s)
    (hfound : (linkMapFind ls lid).isSome) :
    (nm, lid, (ns.getD j dfltNode).id, tr.1) ∈ traceSpec map ls ns := by
  unfold traceSpec
  apply List.mem_flatMap.mpr
  refine ⟨ns.getD j dfltNode, getD_mem dfltNode hj, ?_⟩
  dsimp only
  rw [if_pos hty, hrg]
  dsimp only
  unfold nodeTraceSpec
  apply List.mem_map.mpr
  refine ⟨lid, ?_, rfl⟩
  unfold nodeFoundLids
  apply List.mem_flatMap.mpr
  refine ⟨(( (ns.getD j dfltNode).outputs.getD []).getD s dfltPort), getD_mem dfltPort hs, ?_⟩
  exact List.mem_filter.mpr ⟨hmem, by simpa using hfound⟩

theorem okLinks_false (wf : Workflow) (ns : List Node) (ls : List Link)
    (hn : wf.nodes = some ns) (hl : wf.links = some ls)
    (hall : ns.all (fun n => n.id.isSome) = true) :
    okLinks (convert_setget_to_hardlines wf false) = (runEngine ns ls).1.links := by
  rw [convert_ok_of wf false ns ls hn hl hall]
  rfl

theorem okNodes_false (wf : Workflow) (ns : List Node) (ls : List Link)
    (hn : wf.nodes = some ns) (hl : wf.links = some ls)
    (hall : ns.all (fun n => n.id.isSome) = true) :
    okNodes (convert_setget_to_hardlines wf false) = (runEngine ns ls).1.nodes := by
  rw [convert_ok_of wf false ns ls hn hl hall]
  rfl

/-! ### A link id is never registered on a port when the guard fires -/

theorem setPortLinks_mem_port {ns : List Node} {i s : Nat} {nl : List Int}
    (hi : i < ns.length) {i' s' : Nat} {x : Int}
    (hx : x ∈ (portOf ((setPortLinks ns i s nl).getD i' dfltNode) s').links.getD []) :
    (i' = i ∧ s' = s ∧ x ∈ nl) ∨
      x ∈ (portOf (ns.getD i' dfltNode) s').links.getD [] := by
  by_cases hii : i' = i
  · subst hii
    by_cases hss : s' = s
    · subst hss
      by_cases hs : s' < ((ns.getD i' dfltNode).outputs.getD []).length
      · rw [setPortLinks_portOf_self ns i' s' nl hi hs] at hx
        exact Or.inl ⟨rfl, rfl, hx⟩
      · exfalso
        unfold setPortLinks at hx
        rw [getD_set_self _ _ _ _ hi] at hx
        unfold portOf at hx
        dsimp only at hx
        rw [Option.getD_some,
          List.getD_eq_default _ _ (by rw [List.length_set]; omega)] at hx
        exact absurd hx (List.not_mem_nil x)
    · rw [setPortLinks_portOf_self_ne ns i' s nl hi s' hss] at hx
      exact Or.inr hx
  · rw [setPortLinks_portOf_ne ns i s nl i' hii] at hx
    exact Or.inr hx

theorem add_output_link_mem_port {st : RunSt} {nid slot lid : Int} {i' s' : Nat} {x : Int}
    (hx : x ∈ (portOf ((add_output_link st nid slot lid).nodes.getD i' dfltNode)
      s').links.getD []) :
    x = lid ∨ x ∈ (portOf (st.nodes.getD i' dfltNode) s').links.getD [] := by
  unfold add_output_link at hx
  cases hidx : lastIdxNode st.nodes nid with
  | none => rw [hidx] at hx; exact Or.inr hx
  | some i =>
    rw [hidx] at hx
    dsimp only at hx
    have hi : i < st.nodes.length := (lastIdx?_spec dfltNode hidx).1
    by_cases hguard : (0 : Int) ≤ slot ∧
        slot < ((((st.nodes.getD i dfltNode).outputs.getD []).length : Nat) : Int)
    · rw [if_pos hguard] at hx
      rcases setPortLinks_mem_port hi hx with ⟨hii, hss, hmem⟩ | hx2
      · cases hpl : (((st.nodes.getD i dfltNode).outputs.getD []).getD slot.toNat
            dfltPort).links with
        | none =>
          rw [hpl] at hmem
          dsimp only at hmem
          exact Or.inl (List.mem_singleton.mp hmem)
        | some l =>
          rw [hpl] at hmem
          dsimp only at hmem
          have hport : x ∈ l →
              x ∈ (portOf (st.nodes.getD i' dfltNode) s').links.getD [] := by
            intro hxl
            rw [hii, hss]
            rw [show (portOf (st.nodes.getD i dfltNode) slot.toNat).links = some l from hpl]
            exact hxl
          by_cases hin : lid ∈ l
          · rw [if_pos hin] at hmem
            exact Or.inr (hport hmem)
          · rw [if_neg hin] at hmem
            rcases List.mem_append.mp hmem with hxl | hxl
            · exact Or.inr (hport hxl)
            · exact Or.inl (List.mem_singleton.mp hxl)
      · exact Or.inr hx2
    · rw [if_neg hguard] at hx
      exact Or.inr hx

theorem remove_output_link_mem_port {st : RunSt} {gid : Option Int} {slot lid : Int}
    {i' s' : Nat} {x : Int}
    (hx : x ∈ (portOf ((remove_output_link st gid slot lid).nodes.getD i' dfltNode)
      s').links.getD []) :
    x ∈ (portOf (st.nodes.getD i' dfltNode) s').links.getD [] := by
  unfold remove_output_link at hx
  cases gid with
  | none => exact hx
  | some v =>
    dsimp only at hx
    cases hidx : lastIdxNode st.nodes v with
    | none => rw [hidx] at hx; exact hx
    | some i =>
      rw [hidx] at hx
      dsimp only at hx
      have hi : i < st.nodes.length := (lastIdx?_spec dfltNode hidx).1
      by_cases hguard : (0 : Int) ≤ slot ∧
          slot < ((((st.nodes.getD i dfltNode).outputs.getD []).length : Nat) : Int)
      · rw [if_pos hguard] at hx
        cases hpl : (((st.nodes.getD i dfltNode).outputs.getD []).getD slot.toNat
            dfltPort).links with
        | none => rw [hpl] at hx; exact hx
        | some l =>
          rw [hpl] at hx
          dsimp only at hx
          by_cases hin : lid ∈ l
          · rw [if_pos hin] at hx
            rcases setPortLinks_mem_port hi hx with ⟨hii, hss, hmem⟩ | hx2
            · rw [hii, hss]
              rw [show (portOf (st.nodes.getD i dfltNode) slot.toNat).links = some l
                from hpl]
              exact List.mem_of_mem_erase hmem
            · exact hx2
          · rw [if_neg hin] at hx
            exact hx
      · rw [if_neg hguard] at hx
        exact hx

/-- `add_output_link` is a no-op when every node carrying the target id
has the slot out of range for its output ports. -/
theorem add_output_link_skip (ns₀ : List Node) (tr : Src)
    (hskip : ∀ n ∈ ns₀, n.id = some tr.1 →
      ¬ ((0 : Int) ≤ tr.2.1 ∧ tr.2.1 < (((n.outputs.getD []).length : Nat) : Int)))
    (st : RunSt) (hsig : st.nodes.map nodeSig = ns₀.map nodeSig) (lid'' : Int) :
    add_output_link st tr.1 tr.2.1 lid'' = st := by
  unfold add_output_link
  cases hidx : lastIdxNode st.nodes tr.1 with
  | none => rfl
  | some i =>
    dsimp only
    have hi : i < st.nodes.length := (lastIdx?_spec dfltNode hidx).1
    have hid : (st.nodes.getD i dfltNode).id = some tr.1 :=
      of_decide_eq_true (lastIdx?_spec dfltNode hidx).2
    have hilen : i < ns₀.length := by
      rw [← map_sig_length hsig]
      exact hi
    have hid0 : (ns₀.getD i dfltNode).id = some tr.1 := by
      rw [← (nodeSig_parts (nodeSig_getD hsig i)).1]
      exact hid
    have hlen : ((st.nodes.getD i dfltNode).outputs.getD []).length =
        ((ns₀.getD i dfltNode).outputs.getD []).length :=
      outsLen_eq_of_parts (nodeSig_parts (nodeSig_getD hsig i)).2.2.2.2
    rw [hlen, if_neg (hskip (ns₀.getD i dfltNode) (getD_mem dfltNode hilen) hid0)]

/-- One `processLid` step keeps a link id confined to its original port
when every node carrying the triple's source id has the triple's slot out
of range (so `add_output_link` skips the registration). -/
theorem processLid_onlyAt (ns₀ : List Node) (j s : Nat) (lid₀ : Int) (tr : Src)
    (hskip : ∀ n ∈ ns₀, n.id = some tr.1 →
      ¬ ((0 : Int) ≤ tr.2.1 ∧ tr.2.1 < (((n.outputs.getD []).length : Nat) : Int)))
    (nm' : String) (tr' : Src) (gid' : Option Int) (slot' : Nat) (st : RunSt) (lid'' : Int)
    (hsig : st.nodes.map nodeSig = ns₀.map nodeSig)
    (hQ : OnlyAt lid₀ j s st.nodes)
    (hsafe : lid'' = lid₀ → tr' = tr) :
    OnlyAt lid₀ j s (processLid nm' tr' gid' slot' st lid'').nodes := by
  unfold processLid
  cases hfnd : lastIdxLink st.links lid'' with
  | none => exact hQ
  | some li =>
    dsimp only
    by_cases hlid : lid'' = lid₀
    · have htr' : tr' = tr := hsafe hlid
      rw [htr']
      have hadd := add_output_link_skip ns₀ tr hskip ⟨st.nodes,
        st.links.set li (rewriteLink tr (st.links.getD li dfltLink)), st.rewired,
        st.skipped⟩ hsig lid''
      rw [hadd]
      intro i' s' hx
      have hx2 := remove_output_link_mem_port hx
      exact hQ i' s' hx2
    · intro i' s' hx
      have hx2 := remove_output_link_mem_port hx
      rcases add_output_link_mem_port hx2 with heq | hmem
      · exact absurd heq.symm hlid
      · exact hQ i' s' hmem

theorem lidFold_onlyAt (ns₀ : List Node) (j s : Nat) (lid₀ : Int) (tr : Src)
    (hskip : ∀ n ∈ ns₀, n.id = some tr.1 →
      ¬ ((0 : Int) ≤ tr.2.1 ∧ tr.2.1 < (((n.outputs.getD []).length : Nat) : Int)))
    (nm' : String) (tr' : Src) (gid' : Option Int) (slot' : Nat) :
    ∀ (todo : List Int) (st : RunSt),
      st.nodes.map nodeSig = ns₀.map nodeSig →
      OnlyAt lid₀ j s st.nodes →
      (∀ x ∈ todo, x = lid₀ → tr' = tr) →
      (todo.foldl (processLid nm' tr' gid' slot') st).nodes.map nodeSig =
        ns₀.map nodeSig ∧
      OnlyAt lid₀ j s (todo.foldl (processLid nm' tr' gid' slot') st).nodes := by
  intro todo
  induction todo with
  | nil => intro st h1 h2 _; exact ⟨h1, h2⟩
  | cons a rest ih =>
    intro st h1 h2 hsafe
    rw [List.foldl_cons]
    apply ih
    · exact (processLid_sig nm' tr' gid' slot' st a).trans h1
    · exact processLid_onlyAt ns₀ j s lid₀ tr hskip nm' tr' gid' slot' st a h1 h2
        (hsafe a (List.mem_cons_self a rest))
    · intro x hxm
      exact hsafe x (List.mem_cons_of_mem a hxm)

theorem slotFold_onlyAt (ns₀ : List Node) (j s : Nat) (lid₀ : Int) (tr : Src)
    (hskip : ∀ n ∈ ns₀, n.id = some tr.1 →
      ¬ ((0 : Int) ≤ tr.2.1 ∧ tr.2.1 < (((n.outputs.getD []).length : Nat) : Int)))
    (nm' : String) (tr' : Src) (gid' : Option Int) (k : Nat) (hktr : k = j → tr' = tr) :
    ∀ (S : Nat) (st : RunSt),
      st.nodes.map nodeSig = ns₀.map nodeSig →
      OnlyAt lid₀ j s st.nodes →
      ((List.range S).foldl (processSlot nm' tr' gid' k) st).nodes.map nodeSig =
        ns₀.map nodeSig ∧
      OnlyAt lid₀ j s ((List.range S).foldl (processSlot nm' tr' gid' k) st).nodes := by
  intro S
  induction S with
  | zero => intro st h1 h2; exact ⟨h1, h2⟩
  | succ S ih =>
    intro st h1 h2
    rw [range_foldl_succ]
    obtain ⟨ih1, ih2⟩ := ih st h1 h2
    rw [processSlot_eq]
    refine lidFold_onlyAt ns₀ j s lid₀ tr hskip nm' tr' gid' S _ _ ih1 ih2 ?_
    intro x hxmem hxlid
    subst hxlid
    exact hktr (ih2 k S hxmem).1

/-- Through the whole read pass, a link id whose binding's registration is
blocked by the `add_output_link` guard stays confined to its original
port. -/
theorem readPass_onlyAt (map : List (String × Src)) (ns₀ : List Node) (ls₀ : List Link)
    (hN : (ns₀.map Node.id).Nodup) (hNall : ∀ n ∈ ns₀, n.id.isSome)
    (hL : (ls₀.map Link.id).Nodup) (hU : (allPortLids ns₀).Nodup)
    (hG : NoGetSource map ns₀)
    (j : Nat) (hty : (ns₀.getD j dfltNode).type = some "GetNode")
    (nm : String) (tr : Src)
    (hrg : resolveGet map (ns₀.getD j dfltNode) = some (nm, tr))
    (s : Nat) (lid₀ : Int)
    (hskip : ∀ n ∈ ns₀, n.id = some tr.1 →
      ¬ ((0 : Int) ≤ tr.2.1 ∧ tr.2.1 < (((n.outputs.getD []).length : Nat) : Int)))
    (hQ0 : OnlyAt lid₀ j s ns₀) :
    OnlyAt lid₀ j s (readPass map ⟨ns₀, ls₀, [], []⟩).nodes := by
  rw [show readPass map ⟨ns₀, ls₀, [], []⟩ =
    (List.range ns₀.length).foldl (processNode map) ⟨ns₀, ls₀, [], []⟩ from rfl]
  have main : ∀ k, k ≤ ns₀.length →
      OnlyAt lid₀ j s (((List.range k).foldl (processNode map)
        (⟨ns₀, ls₀, [], []⟩ : RunSt))).nodes := by
    intro k
    induction k with
    | zero => intro _; exact hQ0
    | succ k ihk =>
      intro hk1
      have hk : k < ns₀.length := hk1
      have hQk := ihk (Nat.le_of_lt hk)
      obtain ⟨⟨isig, ilsig⟩, iB1, iB2, iC, iD, iE⟩ :=
        readPass_inv map ns₀ ls₀ hN hNall hL hU hG k (Nat.le_of_lt hk)
      rw [range_foldl_succ]
      set res := (List.range k).foldl (processNode map) (⟨ns₀, ls₀, [], []⟩ : RunSt)
      by_cases htyk : (ns₀.getD k dfltNode).type = some "GetNode"
      · cases hrgk : resolveGet map (ns₀.getD k dfltNode) with
        | none =>
          have hcurk : res.nodes.getD k dfltNode = ns₀.getD k dfltNode :=
            iB1 k htyk (Or.inl (Nat.le_refl k))
          have hstep : processNode map res k = { res with skipped := res.skipped ++
              [((ns₀.getD k dfltNode).id, firstWidget (ns₀.getD k dfltNode))] } := by
            have h1 := processNode_skip map res k (by rw [hcurk]; exact htyk)
              (by rw [hcurk]; exact hrgk)
            rw [hcurk] at h1
            exact h1
          rw [hstep]
          exact hQk
        | some q =>
          obtain ⟨nm', tr'⟩ := q
          have hcurk : res.nodes.getD k dfltNode = ns₀.getD k dfltNode :=
            iB1 k htyk (Or.inl (Nat.le_refl k))
          have hstep : processNode map res k =
              (List.range (((ns₀.getD k dfltNode).outputs.getD []).length)).foldl
                (processSlot nm' tr' (ns₀.getD k dfltNode).id k) res := by
            have h1 := processNode_get map res k nm' tr' (by rw [hcurk]; exact htyk)
              (by rw [hcurk]; exact hrgk)
            rw [hcurk] at h1
            exact h1
          rw [hstep]
          have hktr : k = j → tr' = tr := by
            intro hkj
            subst hkj
            rw [hrgk] at hrg
            exact congrArg Prod.snd (Option.some.inj hrg)
          exact (slotFold_onlyAt ns₀ j s lid₀ tr hskip nm' tr'
            ((ns₀.getD k dfltNode).id) k hktr
            (((ns₀.getD k dfltNode).outputs.getD []).length) res isig hQk).2
      · have htype : (res.nodes.getD k dfltNode).type = (ns₀.getD k dfltNode).type :=
          (nodeSig_parts (nodeSig_getD isig k)).2.1
        rw [processNode_not_get map res k (by rw [htype]; exact htyk)]
        exact hQk
  exact main ns₀.length (Nat.le_refl _)

/-- Unique attachment confines a link id to the port it hangs on. -/
theorem onlyAt_of_uniqueAttach {ns₀ : List Node} (hU : (allPortLids ns₀).Nodup)
    {j : Nat} (hj : j < ns₀.length) {s : Nat}
    (hs : s < ((ns₀.getD j dfltNode).outputs.getD []).length)
    {lid₀ : Int} (hmem : lid₀ ∈ portLids (ns₀.getD j dfltNode) s) :
    OnlyAt lid₀ j s ns₀ := by
  intro i s' hx
  by_cases hi : i < ns₀.length
  · by_cases hs' : s' < ((ns₀.getD i dfltNode).outputs.getD []).length
    · have hxn : lid₀ ∈ nodeLids (ns₀.getD i dfltNode) := portLids_sub_nodeLids hs' hx
      have hmemN : lid₀ ∈ nodeLids (ns₀.getD j dfltNode) := portLids_sub_nodeLids hs hmem
      have hij : i = j := flatMap_nodup_unique_idx (f := nodeLids) hU dfltNode hi hj hxn hmemN
      subst hij
      refine ⟨rfl, ?_⟩
      have hnodej : ((((ns₀.getD i dfltNode).outputs.getD []).flatMap
          (fun p => p.links.getD []))).Nodup :=
        flatMap_nodup_parts hU _ (getD_mem dfltNode hi)
      exact flatMap_nodup_unique_idx hnodej dfltPort hs' hs hx hmem
    · exfalso
      have hdp : portOf (ns₀.getD i dfltNode) s' = dfltPort := by
        unfold portOf
        rw [List.getD_eq_default _ _ (Nat.le_of_not_lt hs')]
      rw [hdp] at hx
      exact absurd hx (List.not_mem_nil lid₀)
  · exfalso
    rw [List.getD_eq_default _ _ (Nat.le_of_not_lt hi)] at hx
    exact absurd hx (List.not_mem_nil lid₀)

/-! ### C1: links of resolvable ReadNodes are rewritten to the binding -/

/-- C1 is falsified on a chained graph: the ReadNode for `A` (node 4)
resolves to the recorded triple `(2, 0, "T")`, link 20 hangs on its output
port and exists in the link map, yet after the call link 20's source node
is 5, not 2 — processing the ReadNode for `B` re-rewrites the link that had
been registered on node 2's port. -/
theorem chain_rewrite_overwrites_earlier_get :
    resolveGet (setPass (chainWf.nodes.getD []) (chainWf.links.getD [])).1
      ((chainWf.nodes.getD []).getD 2 dfltNode) = some ("A", (2, 0, "T")) ∧
    (20 : Int) ∈ nodeLids ((chainWf.nodes.getD []).getD 2 dfltNode) ∧
    ((chainWf.links.getD []).getD 2 dfltLink).id = 20 ∧
    ((okLinks (convert_setget_to_hardlines chainWf false)).getD 2 dfltLink).src_node = 5 ∧
    ¬ ((okLinks (convert_setget_to_hardlines chainWf false)).getD 2 dfltLink).src_node =
      2 := by
  exact ⟨by decide, by decide, by decide, by decide, by decide⟩

/-- C1 amended: in a graph with unique node ids, unique link ids, uniquely
attached link ids and no WriteNode capturing a ReadNode's output, every
link-map-resolvable link id attached to an output port of a ReadNode whose
name resolves ends up with source node, source slot and type tag equal to
the recorded binding, its id and target endpoint unchanged, and the
binding's source is never the ReadNode itself. -/
theorem get_links_rewritten_to_binding (wf : Workflow) (ns : List Node) (ls : List Link)
    (hn : wf.nodes = some ns) (hl : wf.links = some ls)
    (hN : NodupNodeIds ns) (hL : NodupLinkIds ls) (hU : UniqueAttach ns)
    (hG : NoGetSource (setPass ns ls).1 ns)
    (j : Nat) (hj : j < ns.length)
    (hty : (ns.getD j dfltNode).type = some "GetNode")
    (nm : String) (tr : Src)
    (hrg : resolveGet (setPass ns ls).1 (ns.getD j dfltNode) = some (nm, tr))
    (lid : Int) (hmem : lid ∈ nodeLids (ns.getD j dfltNode))
    (p : Nat) (hp : p < ls.length) (hpid : (ls.getD p dfltLink).id = lid) :
    ((okLinks (convert_setget_to_hardlines wf false)).getD p dfltLink).src_node = tr.1 ∧
    ((okLinks (convert_setget_to_hardlines wf false)).getD p dfltLink).src_slot = tr.2.1 ∧
    ((okLinks (convert_setget_to_hardlines wf false)).getD p dfltLink).ltype = tr.2.2 ∧
    ((okLinks (convert_setget_to_hardlines wf false)).getD p dfltLink).id =
      (ls.getD p dfltLink).id ∧
    ((okLinks (convert_setget_to_hardlines wf false)).getD p dfltLink).dst_node =
      (ls.getD p dfltLink).dst_node ∧
    ((okLinks (convert_setget_to_hardlines wf false)).getD p dfltLink).dst_slot =
      (ls.getD p dfltLink).dst_slot ∧
    ¬ (ns.getD j dfltNode).id = some tr.1 := by
  have hall : ns.all (fun n => n.id.isSome) = true := List.all_eq_true.mpr hN.2
  obtain ⟨⟨hsigN, hsigL⟩, hB1, hB2, hC, hD, hE⟩ :=
    readPass_final (setPass ns ls).1 ns ls hN.1 hN.2 hL hU hG
  have hlink : (okLinks (convert_setget_to_hardlines wf false)).getD p dfltLink =
      rewriteLink tr (ls.getD p dfltLink) := by
    rw [okLinks_false wf ns ls hn hl hall,
      show (runEngine ns ls).1 = readPass (setPass ns ls).1 ⟨ns, ls, [], []⟩ from rfl,
      hC p hp]
    unfold rewrittenLink
    rw [hpid, lidRewriteIn_owner (setPass ns ls).1 hU hj hmem, if_pos hty, hrg]
    rfl
  have hns : ¬ (ns.getD j dfltNode).id = some tr.1 := by
    intro hc
    exact hG (nm, tr) (lookup_mem_pair (resolveGet_some hrg).2) _
      (getD_mem dfltNode hj) hc hty
  rw [hlink]
  exact ⟨rfl, rfl, rfl, rfl, rfl, rfl, hns⟩

/-- Applies `get_links_rewritten_to_binding` to the worked example: link 20
of the ReadNode for `X` is redirected to `(5, 0)` with tag `IMAGE`. -/
theorem get_links_rewritten_to_binding_witness :
    ((okLinks (convert_setget_to_hardlines exWf false)).getD 1 dfltLink).src_node = 5 ∧
    ((okLinks (convert_setget_to_hardlines exWf false)).getD 1 dfltLink).src_slot = 0 ∧
    ((okLinks (convert_setget_to_hardlines exWf false)).getD 1 dfltLink).ltype = "IMAGE" ∧
    ((okLinks (convert_setget_to_hardlines exWf false)).getD 1 dfltLink).id =
      ((exWf.links.getD []).getD 1 dfltLink).id ∧
    ((okLinks (convert_setget_to_hardlines exWf false)).getD 1 dfltLink).dst_node =
      ((exWf.links.getD []).getD 1 dfltLink).dst_node ∧
    ((okLinks (convert_setget_to_hardlines exWf false)).getD 1 dfltLink).dst_slot =
      ((exWf.links.getD []).getD 1 dfltLink).dst_slot ∧
    ¬ ((exWf.nodes.getD []).getD 1 dfltNode).id = some 5 :=
  get_links_rewritten_to_binding exWf (exWf.nodes.getD []) (exWf.links.getD []) rfl rfl
    (by decide) (by decide) (by decide) (by decide) 1 (by decide) (by decide)
    "X" (5, 0, "IMAGE") (by decide) 20 (by decide) 1 (by decide) (by decide)

/-! ### C6: unresolvable ReadNodes -/

/-- C6 is falsified: on `c6Wf` the name `B` of the ReadNode at position 2
has no entry in the resolution index, yet its output-port link set changes
from `[40]` to `[40, 20]` — rewiring the ReadNode for `A` registers link 20
on node 2's port, because the WriteNode for `A` captured node 2's output. -/
theorem unresolved_get_port_gains_link :
    resolveGet (setPass (c6Wf.nodes.getD []) (c6Wf.links.getD [])).1
      ((c6Wf.nodes.getD []).getD 2 dfltNode) = none ∧
    portLids ((c6Wf.nodes.getD []).getD 2 dfltNode) 0 = [40] ∧
    portLids ((okNodes (convert_setget_to_hardlines c6Wf false)).getD 2 dfltNode) 0 =
      [40, 20] := by
  exact ⟨by decide, by decide, by decide⟩

/-- C6 amended: in a graph with unique node ids, unique link ids, uniquely
attached link ids and no WriteNode capturing a ReadNode's output, a
ReadNode whose name has no entry in the resolution index appears exactly
once in `skipped_gets` as `(readNodeId, name)`, its node entry (including
every output-port link set) survives unchanged, and each link attached to
one of its ports is returned exactly as it stood in the input. -/
theorem unresolved_get_untouched (wf : Workflow) (ns : List Node) (ls : List Link)
    (hn : wf.nodes = some ns) (hl : wf.links = some ls)
    (hN : NodupNodeIds ns) (hL : NodupLinkIds ls) (hU : UniqueAttach ns)
    (hG : NoGetSource (setPass ns ls).1 ns)
    (j : Nat) (hj : j < ns.length)
    (hty : (ns.getD j dfltNode).type = some "GetNode")
    (hrg : resolveGet (setPass ns ls).1 (ns.getD j dfltNode) = none) :
    ((engineReport ns ls).2.1).count
      ((ns.getD j dfltNode).id, firstWidget (ns.getD j dfltNode)) = 1 ∧
    (okNodes (convert_setget_to_hardlines wf false)).getD j dfltNode =
      ns.getD j dfltNode ∧
    (∀ p, p < ls.length → (ls.getD p dfltLink).id ∈ nodeLids (ns.getD j dfltNode) →
      (okLinks (convert_setget_to_hardlines wf false)).getD p dfltLink =
        ls.getD p dfltLink) := by
  have hall : ns.all (fun n => n.id.isSome) = true := List.all_eq_true.mpr hN.2
  obtain ⟨⟨hsigN, hsigL⟩, hB1, hB2, hC, hD, hE⟩ :=
    readPass_final (setPass ns ls).1 ns ls hN.1 hN.2 hL hU hG
  refine ⟨?_, ?_, ?_⟩
  · rw [show (engineReport ns ls).2.1 =
      (readPass (setPass ns ls).1 ⟨ns, ls, [], []⟩).skipped from rfl, hE]
    exact skippedSpec_count_one (setPass ns ls).1 hN.1 hj hty hrg
  · rw [okNodes_false wf ns ls hn hl hall,
      show (runEngine ns ls).1 = readPass (setPass ns ls).1 ⟨ns, ls, [], []⟩ from rfl]
    exact hB1 j hty hrg
  · intro p hp hmem
    rw [okLinks_false wf ns ls hn hl hall,
      show (runEngine ns ls).1 = readPass (setPass ns ls).1 ⟨ns, ls, [], []⟩ from rfl,
      hC p hp]
    unfold rewrittenLink
    rw [lidRewriteIn_owner (setPass ns ls).1 hU hj hmem, if_pos hty, hrg]
    rfl

/-- Applies `unresolved_get_untouched` to `c6okWf`: the unresolvable
ReadNode for `B` is reported once and nothing of it changes. -/
theorem unresolved_get_untouched_witness :
    ((engineReport (c6okWf.nodes.getD []) (c6okWf.links.getD [])).2.1).count
      (((c6okWf.nodes.getD []).getD 0 dfltNode).id,
        firstWidget ((c6okWf.nodes.getD []).getD 0 dfltNode)) = 1 ∧
    (okNodes (convert_setget_to_hardlines c6okWf false)).getD 0 dfltNode =
      (c6okWf.nodes.getD []).getD 0 dfltNode ∧
    (∀ p, p < (c6okWf.links.getD []).length →
      ((c6okWf.links.getD []).getD p dfltLink).id ∈
        nodeLids ((c6okWf.nodes.getD []).getD 0 dfltNode) →
      (okLinks (convert_setget_to_hardlines c6okWf false)).getD p dfltLink =
        (c6okWf.links.getD []).getD p dfltLink) :=
  unresolved_get_untouched c6okWf (c6okWf.nodes.getD []) (c6okWf.links.getD []) rfl rfl
    (by decide) (by decide) (by decide) (by decide) 0 (by decide) (by decide) (by decide)

/-! ### C7: the reported rewired count -/

/-- C7 is falsified on the chained graph: the call reports
`rewired_count = 3`, but only two (ReadNode output-port, link id) pairs of
the graph are eligible — the ReadNode for `B` also processes link 20,
which was registered on its port during the pass itself, so one link is
counted from a port it was never attached to in the input. -/
theorem chain_inflates_rewired_count :
    List.lookup "rewired_count" (okReport (convert_setget_to_hardlines chainWf false)) =
      some (RVal.num 3) ∧
    rewiredPairsSpec (setPass (chainWf.nodes.getD []) (chainWf.links.getD [])).1
      (chainWf.links.getD []) (chainWf.nodes.getD []) = 2 := by
  exact ⟨by decide, by decide⟩

/-- C7 amended: in a graph with unique node ids, unique link ids, uniquely
attached link ids and no WriteNode capturing a ReadNode's output, the
reported `rewired_count` equals the number of (ReadNode output-port,
link id) pairs of the graph whose name resolves and whose link id exists in
the link map, counted once per pair. -/
theorem rewired_count_counts_pairs (wf : Workflow) (drop : Bool) (ns : List Node)
    (ls : List Link) (hn : wf.nodes = some ns) (hl : wf.links = some ls)
    (hN : NodupNodeIds ns) (hL : NodupLinkIds ls) (hU : UniqueAttach ns)
    (hG : NoGetSource (setPass ns ls).1 ns) :
    List.lookup "rewired_count" (okReport (convert_setget_to_hardlines wf drop)) =
      some (RVal.num (rewiredPairsSpec (setPass ns ls).1 ls ns)) := by
  have hall : ns.all (fun n => n.id.isSome) = true := List.all_eq_true.mpr hN.2
  obtain ⟨⟨hsigN, hsigL⟩, hB1, hB2, hC, hD, hE⟩ :=
    readPass_final (setPass ns ls).1 ns ls hN.1 hN.2 hL hU hG
  rw [convert_ok_of wf drop ns ls hn hl hall, okReport_convertCore]
  rw [lookup_setKey_ne _ _ _ _ (by decide), lookup_setKey_ne _ _ _ _ (by decide),
    lookup_setKey_self]
  rw [show (engineReport ns ls).1 =
    (readPass (setPass ns ls).1 ⟨ns, ls, [], []⟩).rewired.length from rfl, hD,
    traceSpec_length]

/-- Applies `rewired_count_counts_pairs` to the worked example: the one
eligible pair is reported. -/
theorem rewired_count_counts_pairs_witness :
    List.lookup "rewired_count" (okReport (convert_setget_to_hardlines exWf false)) =
      some (RVal.num (rewiredPairsSpec
        (setPass (exWf.nodes.getD []) (exWf.links.getD [])).1
        (exWf.links.getD []) (exWf.nodes.getD []))) :=
  rewired_count_counts_pairs exWf false (exWf.nodes.getD []) (exWf.links.getD []) rfl rfl
    (by decide) (by decide) (by decide) (by decide)

/-! ### C10: bindings whose source node is absent -/

/-- C10: in a graph with unique node ids, unique link ids, uniquely
attached link ids and no WriteNode capturing a ReadNode's output, a
ReadNode whose name resolves to a triple on which the registration guard of
`add_output_link` fires — the source node id matches no node, or every node
carrying it has the source slot out of range for its output ports — still
has each of its existing attached links rewritten to that triple, traced
(hence counted in `rewired_count`), and removed from its port; the link id
is registered nowhere, hanging on no output port of the returned graph, and
when the source node id matches no node the returned graph contains a link
whose source node id matches no returned node. -/
theorem absent_source_still_rewires (wf : Workflow) (ns : List Node) (ls : List Link)
    (hn : wf.nodes = some ns) (hl : wf.links = some ls)
    (hN : NodupNodeIds ns) (hL : NodupLinkIds ls) (hU : UniqueAttach ns)
    (hG : NoGetSource (setPass ns ls).1 ns)
    (j : Nat) (hj : j < ns.length)
    (hty : (ns.getD j dfltNode).type = some "GetNode")
    (nm : String) (tr : Src)
    (hrg : resolveGet (setPass ns ls).1 (ns.getD j dfltNode) = some (nm, tr))
    (hskip : ∀ n ∈ ns, n.id = some tr.1 →
      ¬ ((0 : Int) ≤ tr.2.1 ∧ tr.2.1 < (((n.outputs.getD []).length : Nat) : Int)))
    (s : Nat) (hs : s < ((ns.getD j dfltNode).outputs.getD []).length)
    (lid : Int) (hmem : lid ∈ portLids (ns.getD j dfltNode) s)
    (p : Nat) (hp : p < ls.length) (hpid : (ls.getD p dfltLink).id = lid) :
    (okLinks (convert_setget_to_hardlines wf false)).getD p dfltLink =
      rewriteLink tr (ls.getD p dfltLink) ∧
    (nm, lid, (ns.getD j dfltNode).id, tr.1) ∈ (runEngine ns ls).1.rewired ∧
    ¬ lid ∈ (portOf ((okNodes (convert_setget_to_hardlines wf false)).getD j
        dfltNode) s).links.getD [] ∧
    (∀ n ∈ okNodes (convert_setget_to_hardlines wf false), ¬ lid ∈ nodeLids n) ∧
    ((∀ n ∈ ns, ¬ n.id = some tr.1) →
      ∀ n ∈ okNodes (convert_setget_to_hardlines wf false),
        ¬ n.id = some (((okLinks (convert_setget_to_hardlines wf false)).getD p
          dfltLink).src_node)) := by
  have hall : ns.all (fun n => n.id.isSome) = true := List.all_eq_true.mpr hN.2
  obtain ⟨⟨hsigN, hsigL⟩, hB1, hB2, hC, hD, hE⟩ :=
    readPass_final (setPass ns ls).1 ns ls hN.1 hN.2 hL hU hG
  have hmemN : lid ∈ nodeLids (ns.getD j dfltNode) := portLids_sub_nodeLids hs hmem
  have hfound : (linkMapFind ls lid).isSome := by
    unfold linkMapFind
    rw [lastIdxLink_eq_self hL hp hpid]
    rfl
  have hlink : (okLinks (convert_setget_to_hardlines wf false)).getD p dfltLink =
      rewriteLink tr (ls.getD p dfltLink) := by
    rw [okLinks_false wf ns ls hn hl hall,
      show (runEngine ns ls).1 = readPass (setPass ns ls).1 ⟨ns, ls, [], []⟩ from rfl,
      hC p hp]
    unfold rewrittenLink
    rw [hpid, lidRewriteIn_owner (setPass ns ls).1 hU hj hmemN, if_pos hty, hrg]
    rfl
  have hjport : ¬ lid ∈ (portOf ((readPass (setPass ns ls).1
      ⟨ns, ls, [], []⟩).nodes.getD j dfltNode) s).links.getD [] := by
    rw [hB2 j hj hty (by rw [hrg]; rfl) s hs]
    intro hmem2
    have hnotin : ¬ lid ∈ foundLids ls (portLids (ns.getD j dfltNode) s) :=
      of_decide_eq_true (List.mem_filter.mp hmem2).2
    exact hnotin (List.mem_filter.mpr ⟨hmem, by simpa using hfound⟩)
  refine ⟨hlink, ?_, ?_, ?_, ?_⟩
  · rw [show (runEngine ns ls).1 = readPass (setPass ns ls).1 ⟨ns, ls, [], []⟩ from rfl,
      hD]
    exact traceSpec_mem (setPass ns ls).1 ls hj hty hrg hs hmem hfound
  · rw [okNodes_false wf ns ls hn hl hall,
      show (runEngine ns ls).1 = readPass (setPass ns ls).1 ⟨ns, ls, [], []⟩ from rfl]
    exact hjport
  · intro n hnmem hx
    rw [okNodes_false wf ns ls hn hl hall,
      show (runEngine ns ls).1 = readPass (setPass ns ls).1 ⟨ns, ls, [], []⟩ from rfl]
      at hnmem
    have hQfin : OnlyAt lid j s (readPass (setPass ns ls).1 ⟨ns, ls, [], []⟩).nodes :=
      readPass_onlyAt (setPass ns ls).1 ns ls hN.1 hN.2 hL hU hG j hty nm tr hrg s lid
        hskip (onlyAt_of_uniqueAttach hU hj hs hmem)
    obtain ⟨i, hi, hgi⟩ := List.mem_iff_getElem.mp hnmem
    have hgD : (readPass (setPass ns ls).1 ⟨ns, ls, [], []⟩).nodes.getD i dfltNode = n := by
      rw [List.getD_eq_getElem _ _ hi]
      exact hgi
    unfold nodeLids at hx
    obtain ⟨port, hpmem, hlp⟩ := List.mem_flatMap.mp hx
    obtain ⟨s', hs', hps⟩ := List.mem_iff_getElem.mp hpmem
    have hpof : portOf n s' = port := by
      unfold portOf
      rw [List.getD_eq_getElem _ _ hs']
      exact hps
    have hx' : lid ∈ (portOf ((readPass (setPass ns ls).1
        ⟨ns, ls, [], []⟩).nodes.getD i dfltNode) s').links.getD [] := by
      rw [hgD, hpof]
      exact hlp
    obtain ⟨hij, hss⟩ := hQfin i s' hx'
    rw [hij, hss] at hx'
    exact hjport hx'
  · intro hnosrc n hnmem hc
    rw [hlink] at hc
    rw [okNodes_false wf ns ls hn hl hall,
      show (runEngine ns ls).1 = readPass (setPass ns ls).1 ⟨ns, ls, [], []⟩ from rfl]
      at hnmem
    have hcomp : ∀ l : List Node,
        l.map ((fun q : Option Int × Option String × Option (List (Option String)) ×
          Option (List InPort) × Option Nat => q.1) ∘ nodeSig) = l.map Node.id :=
      fun l => List.map_congr_left (fun a _ => rfl)
    have hids : (readPass (setPass ns ls).1 ⟨ns, ls, [], []⟩).nodes.map Node.id =
        ns.map Node.id := by
      have h1 := congrArg (List.map (fun q : Option Int × Option String ×
        Option (List (Option String)) × Option (List InPort) × Option Nat => q.1)) hsigN
      rw [List.map_map, List.map_map, hcomp, hcomp] at h1
      exact h1
    have hmemid : n.id ∈ ns.map Node.id := by
      rw [← hids]
      exact List.mem_map.mpr ⟨n, hnmem, rfl⟩
    obtain ⟨m, hm, hmid⟩ := List.mem_map.mp hmemid
    exact hnosrc m hm (by rw [hmid]; exact hc)

/-- Applies `absent_source_still_rewires` to `c10Wf`, whose binding for `X`
records the absent node 99 (so the registration guard fires vacuously):
link 20 is redirected to node 99, traced, removed from the ReadNode's port,
hangs on no port of the result, and matches no node of the result. -/
theorem absent_source_still_rewires_witness :
    (okLinks (convert_setget_to_hardlines c10Wf false)).getD 1 dfltLink =
      rewriteLink (99, 0, "T") ((c10Wf.links.getD []).getD 1 dfltLink) ∧
    ("X", 20, ((c10Wf.nodes.getD []).getD 1 dfltNode).id, 99) ∈
      (runEngine (c10Wf.nodes.getD []) (c10Wf.links.getD [])).1.rewired ∧
    ¬ (20 : Int) ∈ (portOf ((okNodes (convert_setget_to_hardlines c10Wf false)).getD 1
        dfltNode) 0).links.getD [] ∧
    (∀ n ∈ okNodes (convert_setget_to_hardlines c10Wf false), ¬ (20 : Int) ∈ nodeLids n) ∧
    ((∀ n ∈ (c10Wf.nodes.getD []), ¬ n.id = some 99) →
      ∀ n ∈ okNodes (convert_setget_to_hardlines c10Wf false),
        ¬ n.id = some (((okLinks (convert_setget_to_hardlines c10Wf false)).getD 1
          dfltLink).src_node)) :=
  absent_source_still_rewires c10Wf (c10Wf.nodes.getD []) (c10Wf.links.getD []) rfl rfl
    (by decide) (by decide) (by decide) (by decide) 1 (by decide) (by decide)
    "X" (99, 0, "T") (by decide) (by decide) 0 (by decide) 20 (by decide) 1 (by decide)
    (by decide)

end Hardline
